import Mathlib

/-!
Verification development for the brand-identity analyzer backend
(`src/api/index.js`).  The JavaScript pipeline is shallowly embedded:
pure string manipulation is carried out over `List Char`, the regex scans
of the source are hand-compiled into executable scanners with the same
match semantics (leftmost match, greedy repetition, `g`-style resumption
after each match), JavaScript `Map`/`Set` become association lists that
preserve insertion order, the stable `Array.prototype.sort` becomes a
structural stable insertion sort, and the float arithmetic of
`hslToHex`/`getLuminance` is carried out over `ℚ` (exact on the values
the claims touch).  The WHATWG `URL` library used by the source is
modelled by a restricted parser (`parseUrl`): plain `http`/`https` URLs
with a host of ASCII letters, digits, `.`, `-`, `_`, no userinfo, no
explicit port, printable path/query/fragment without percent-encoding
normalization and without `.`/`..` segments; inputs outside this
fragment are mapped to `none` (parse failure).
-/

namespace Thestyleof

/-! ## JavaScript string primitives -/

/-- The whitespace class used by JavaScript `trim` and the regex `\s`
    (restricted to its ASCII members). -/
def isWsChar (c : Char) : Bool :=
  c = ' ' || c = '\t' || c = '\n' || c = '\r' || c = '\x0b' || c = '\x0c'

/-- JavaScript `String.prototype.trim` over a character list. -/
def trimChars (cs : List Char) : List Char :=
  ((cs.dropWhile isWsChar).reverse.dropWhile isWsChar).reverse

/-- JavaScript `String.prototype.trim`. -/
def jsTrim (s : String) : String := ⟨trimChars s.data⟩

def lowerList (cs : List Char) : List Char := cs.map Char.toLower

def upperList (cs : List Char) : List Char := cs.map Char.toUpper

/-- Substring test (JavaScript `includes` / a plain regex literal). -/
def containsSub (needle : List Char) : List Char → Bool
  | [] => needle.isEmpty
  | c :: rest => needle.isPrefixOf (c :: rest) || containsSub needle rest

/-- Case-insensitive substring test (a regex literal with the `i` flag). -/
def containsSubCI (needle hay : List Char) : Bool :=
  containsSub (lowerList needle) (lowerList hay)

/-- JavaScript `a || b` on strings (empty string is falsy). -/
def jsOrStr (a b : String) : String := if a = ("") then b else a

/-- Truthiness of a nullable string. -/
def jsTruthyOptStr : Option String → Bool
  | none => false
  | some s => !(s = (""))

/-- JavaScript `String.prototype.split` on a single-character separator. -/
def splitOnChar (sep : Char) : List Char → List (List Char)
  | [] => [[]]
  | c :: rest =>
    let r := splitOnChar sep rest
    if c = sep then [] :: r
    else
      match r with
      | [] => [[c]]
      | s :: ss => (c :: s) :: ss

/-- Decimal digit run to a number (`parseInt` on a `\d+` capture). -/
def digitsToNat (cs : List Char) : Nat :=
  cs.foldl (fun a c => a * 10 + (c.toNat - 48)) 0

/-! ## Restricted model of the WHATWG URL library -/

/-- Printable ASCII, the only characters the model lets through URL
    components (33 = `!` .. 126 = `~`). -/
def urlDisplayChar (c : Char) : Bool := 33 ≤ c.toNat && c.toNat ≤ 126

/-- Host characters: lowercase ASCII letters, digits, `.`, `-`, `_`. -/
def hostChar (c : Char) : Bool :=
  (97 ≤ c.toNat && c.toNat ≤ 122) || (48 ≤ c.toNat && c.toNat ≤ 57) ||
    c.toNat = 46 || c.toNat = 45 || c.toNat = 95

/-- Path characters: printable ASCII minus the characters the real URL
    serializer percent-encodes or that terminate the path
    (`"` `<` `>` `` ` `` `{` `}` `|` `\` `^` and `?` `#`, by code point). -/
def pathChar (c : Char) : Bool :=
  urlDisplayChar c &&
    !(c.toNat = 34 || c.toNat = 60 || c.toNat = 62 || c.toNat = 96 ||
      c.toNat = 123 || c.toNat = 125 || c.toNat = 124 || c.toNat = 92 ||
      c.toNat = 94 || c.toNat = 63 || c.toNat = 35)

def queryChar (c : Char) : Bool := pathChar c || c.toNat = 63

def fragChar (c : Char) : Bool := queryChar c || c.toNat = 35

/-- Characters ending the authority section (`/` `?` `#`). -/
def authStop (c : Char) : Bool := c.toNat = 47 || c.toNat = 63 || c.toNat = 35

/-- Characters ending the path section (`?` `#`). -/
def pathStop (c : Char) : Bool := c.toNat = 63 || c.toNat = 35

/-- A parsed URL of the restricted model, already canonicalized. -/
structure Url where
  https : Bool
  host : List Char
  path : List Char
  query : List Char
  frag : List Char
deriving DecidableEq

def schemePart (https : Bool) : List Char :=
  if https then ("https://").data else ("http://").data

def hrefChars (u : Url) : List Char :=
  schemePart u.https ++ (u.host ++ (u.path ++ (u.query ++ u.frag)))

/-- `URL.prototype.href` of the model. -/
def href (u : Url) : String := ⟨hrefChars u⟩

def originChars (u : Url) : List Char :=
  (if u.https then ("https://").data else ("http://").data) ++ u.host

/-- `URL.prototype.origin` of the model (no explicit port is modelled). -/
def origin (u : Url) : String := ⟨originChars u⟩

/-- The input preprocessing of the URL parser: strip ASCII tab and
    newline everywhere, C0 controls and space at both ends. -/
def stripUrlInput (cs : List Char) : List Char :=
  (((cs.filter (fun c => !(c.toNat = 9 || c.toNat = 10 || c.toNat = 13))).dropWhile
      (fun c => c.toNat ≤ 32)).reverse.dropWhile (fun c => c.toNat ≤ 32)).reverse

/-- Recognize and remove a case-insensitive `http://`/`https://` scheme. -/
def schemeSplit (cs : List Char) : Option (Bool × List Char) :=
  if lowerList (cs.take 7) = ("http://").data then some (false, cs.drop 7)
  else if lowerList (cs.take 8) = ("https://").data then some (true, cs.drop 8)
  else none

/-- `.` or `..` path segments (left to the real library's normalization,
    outside this model). -/
def hasDotSegment (path : List Char) : Bool :=
  (splitOnChar '/' path).any (fun s => s = ['.'] || s = ['.', '.'])

/-- The canonical path: an empty raw path serializes as `/`. -/
def pathOf (rest2 : List Char) : List Char :=
  if (rest2.takeWhile (fun c => !pathStop c)).isEmpty then ['/']
  else rest2.takeWhile (fun c => !pathStop c)

/-- Query/fragment stage of the parser: split the remainder at the
    first `#`, validate both sides. -/
def parseQueryFrag (https : Bool) (host path rest3 : List Char) : Option Url :=
  if !(rest3.takeWhile (fun c => !(c.toNat = 35))).all queryChar then none
  else if !(rest3.dropWhile (fun c => !(c.toNat = 35))).all fragChar then none
  else some ⟨https, host, path, rest3.takeWhile (fun c => !(c.toNat = 35)),
    rest3.dropWhile (fun c => !(c.toNat = 35))⟩

/-- Path stage of the parser: take up to the first `?`/`#`, default to
    `/`, validate, reject `.`/`..` segments. -/
def parsePathOn (https : Bool) (host rest2 : List Char) : Option Url :=
  if !(pathOf rest2).all pathChar then none
  else if hasDotSegment (pathOf rest2) then none
  else parseQueryFrag https host (pathOf rest2) (rest2.dropWhile (fun c => !pathStop c))

/-- Authority stage of the parser: take up to the first `/`/`?`/`#`,
    reject empty hosts, userinfo (`@`) and ports (`:`), lowercase and
    validate the host. -/
def parseAuthority (https : Bool) (rest : List Char) : Option Url :=
  if (rest.takeWhile (fun c => !authStop c)).isEmpty then none
  else if (rest.takeWhile (fun c => !authStop c)).any (fun c => c.toNat = 64 || c.toNat = 58) then
    none
  else if !(lowerList (rest.takeWhile (fun c => !authStop c))).all hostChar then none
  else parsePathOn https (lowerList (rest.takeWhile (fun c => !authStop c)))
    (rest.dropWhile (fun c => !authStop c))

/-- The restricted URL parser (`new URL(s)`); `none` models a thrown
    `TypeError` as well as inputs outside the modelled fragment. -/
def parseUrlChars (cs0 : List Char) : Option Url :=
  match schemeSplit (stripUrlInput cs0) with
  | none => none
  | some (https, rest) => parseAuthority https rest

def parseUrl (s : String) : Option Url := parseUrlChars s.data

/-- Canonical shape of every URL the parser produces: validated host,
    `/`-rooted path, `?`-rooted query, `#`-rooted fragment. -/
def UrlOk (u : Url) : Prop :=
  u.host ≠ [] ∧ u.host.all hostChar = true ∧
  (∃ t, u.path = '/' :: t) ∧ u.path.all pathChar = true ∧ hasDotSegment u.path = false ∧
  u.query.all queryChar = true ∧ (u.query = [] ∨ ∃ t, u.query = '?' :: t) ∧
  u.frag.all fragChar = true ∧ (u.frag = [] ∨ ∃ t, u.frag = '#' :: t)

/-- The test `/^https?:\/\//i` of `normalizeUrl`. -/
def hasHttpScheme (s : String) : Bool :=
  (("http://").data.isPrefixOf (lowerList s.data)) ||
    (("https://").data.isPrefixOf (lowerList s.data))

/-- Model of `normalizeUrl` (src/api/index.js:28-37): trim, prepend
    `https://` when the scheme is missing, parse, return the canonical
    href; `none` models the thrown `Invalid URL` error. -/
def normalizeUrl (inputUrl : String) : Option String :=
  (parseUrl (if hasHttpScheme (jsTrim inputUrl) then jsTrim inputUrl
    else ("https://") ++ jsTrim inputUrl)).map href

/-- A `:` before any `/`, `?`, `#`: a scheme other than `http`/`https`,
    outside the model. -/
def schemeLikeStart (cs : List Char) : Bool :=
  (cs.takeWhile (fun c => !authStop c)).any (fun c => c.toNat = 58)

/-- The path up to and including its last `/` (relative-reference
    resolution base). -/
def dirOfPath (path : List Char) : List Char :=
  (path.reverse.dropWhile (fun c => !(c.toNat = 47))).reverse

/-- Model of `resolveUrl` (src/api/index.js:42-49): resolve `relative`
    against `base` with `new URL(relative, base)`; `none` models the
    `!relative` guard, a thrown parse error, and inputs outside the
    modelled URL fragment. -/
def resolveRel (b : Url) (rc : List Char) : Option String :=
  if ("//").data.isPrefixOf rc then
    (parseUrlChars ((if b.https then ("https:") else ("http:")).data ++ rc)).map href
  else if schemeLikeStart rc then none
  else if ("/").data.isPrefixOf rc then
    (parseUrlChars (originChars b ++ rc)).map href
  else if ("?").data.isPrefixOf rc then
    (parseUrlChars (originChars b ++ b.path ++ rc)).map href
  else if ("#").data.isPrefixOf rc then
    (parseUrlChars (originChars b ++ b.path ++ b.query ++ rc)).map href
  else
    (parseUrlChars (originChars b ++ dirOfPath b.path ++ rc)).map href

def resolveUrl (base relative : String) : Option String :=
  if relative = ("") then none
  else
    match parseUrl base with
    | none => none
    | some b =>
      if hasHttpScheme relative then (parseUrlChars relative.data).map href
      else resolveRel b relative.data

/-! ## Stable sort (model of JavaScript `Array.prototype.sort`) -/

/-- Insert `x` before the first element `y` that is not strictly below it
    (`le y x && !(le x y)` keeps `y` in front), so that elements equal
    under `le` keep their original relative order. -/
def insStable (le : α → α → Bool) (x : α) : List α → List α
  | [] => [x]
  | y :: ys => if le y x && !(le x y) then y :: insStable le x ys else x :: y :: ys

/-- Stable comparison sort, the model of `Array.prototype.sort(cmp)`
    (stable per the ECMAScript specification). -/
def sortStable (le : α → α → Bool) : List α → List α
  | [] => []
  | x :: xs => insStable le x (sortStable le xs)

/-! ## Logo extractor -/

structure ImgEl where
  src : String
  alt : String
  cls : String
  idAttr : String
deriving DecidableEq

/-- The logo-relevant content of a parsed page: `og:image` /
    `twitter:image` meta contents, `apple-touch-icon` hrefs, `img`
    elements, `svg` class attributes, and the first `icon`/`shortcut
    icon` href (the `||` of the two selectors); a missing attribute is
    the empty string (both are falsy where the source tests them). -/
structure LogoDoc where
  ogImage : String
  twitterImage : String
  appleTouchIcons : List String
  imgs : List ImgEl
  svgClasses : List String
  iconHref : String
deriving DecidableEq

structure LogoCandidate where
  url : Option String
  source : String
  priority : Nat
deriving DecidableEq

/-- The `isLogo` test of src/api/index.js:124-125 (`src` matched
    case-insensitively, the other attributes lowercased beforehand). -/
def imgIsLogo (el : ImgEl) : Bool :=
  containsSubCI (("logo").data) el.src.data ||
  containsSub (("logo").data) (lowerList el.alt.data) ||
  containsSub (("logo").data) (lowerList el.cls.data) ||
  containsSub (("logo").data) (lowerList el.idAttr.data)

/-- The candidate list built by `extractLogo` (src/api/index.js:96-146),
    in push order; `b` is the parsed base URL. -/
def logoCandidates (d : LogoDoc) (baseUrl : String) (b : Url) : List LogoCandidate :=
  (if d.ogImage = ("") then [] else [⟨resolveUrl baseUrl d.ogImage, ("og:image"), 1⟩]) ++
  (if d.twitterImage = ("") then [] else [⟨resolveUrl baseUrl d.twitterImage, ("twitter:image"), 2⟩]) ++
  (d.appleTouchIcons.filterMap (fun h =>
    if h = ("") then none else some ⟨resolveUrl baseUrl h, ("apple-touch-icon"), 3⟩)) ++
  (d.imgs.filterMap (fun el =>
    if imgIsLogo el && !(el.src = ("")) then some ⟨resolveUrl baseUrl el.src, ("img[logo]"), 4⟩
    else none)) ++
  (d.svgClasses.filterMap (fun cls =>
    if containsSub (("logo").data) (lowerList cls.data) then some ⟨none, ("inline-svg"), 5⟩
    else none)) ++
  (if d.iconHref = ("") then [] else [⟨resolveUrl baseUrl d.iconHref, ("favicon"), 6⟩]) ++
  [⟨some (origin b ++ ("/favicon.ico")), ("favicon-fallback"), 7⟩]

/-- Model of `extractLogo` (src/api/index.js:96-152): sort the candidates
    by ascending priority, return the first with a truthy url.  The outer
    `none` models the exception thrown when `new URL(baseUrl)` fails. -/
def extractLogo (d : LogoDoc) (baseUrl : String) : Option (Option LogoCandidate) :=
  match parseUrl baseUrl with
  | none => none
  | some b =>
    some ((sortStable (fun a c => a.priority ≤ c.priority)
      (logoCandidates d baseUrl b)).find? (fun c => jsTruthyOptStr c.url))

/-- A page with none of the logo signals `extractLogo` scans for. -/
def noLogoSignals (d : LogoDoc) : Bool :=
  d.ogImage = ("") && d.twitterImage = ("") &&
  d.appleTouchIcons.all (fun h => h = ("")) &&
  d.imgs.all (fun el => !(imgIsLogo el && !(el.src = ("")))) &&
  d.svgClasses.all (fun cls => !containsSub (("logo").data) (lowerList cls.data)) &&
  d.iconHref = ("")

/-! ## Tagline extractor -/

/-- The tagline-relevant content of a parsed page: `heroTexts` holds
    `$(sel).first().text()` for the eleven hero selectors of
    src/api/index.js:183-195, in that order; a selector with no match
    yields the empty string. -/
structure TaglineDoc where
  heroTexts : List String
  ogDescription : String
  twitterDescription : String
  h1 : String
deriving DecidableEq

/-- The hero-selector loop (src/api/index.js:197-200): first trimmed text
    that is non-empty with length strictly between 4 and 200. -/
def firstHero : List String → Option String
  | [] => none
  | t :: rest =>
    let tt := jsTrim t
    if !(tt = ("")) && 4 < tt.length && tt.length < 200 then some tt else firstHero rest

/-- JavaScript `description.split('.')[0]`. -/
def headBeforeDot (s : String) : String := ⟨s.data.takeWhile (fun c => !(c = '.'))⟩

/-- Model of `extractTagline` (src/api/index.js:177-211). -/
def extractTagline (d : TaglineDoc) (description : String) : String :=
  match firstHero d.heroTexts with
  | some t => t
  | none =>
    if !(d.ogDescription = ("")) && d.ogDescription.length < 120 then d.ogDescription
    else if !(d.twitterDescription = ("")) && d.twitterDescription.length < 120 then
      d.twitterDescription
    else if !(jsTrim d.h1 = ("")) && (jsTrim d.h1).length < 150 then jsTrim d.h1
    else jsOrStr (headBeforeDot description) ("")

/-- The tagline fallback chain as claim C7 states it, with the hero
    length window read as the code has it (strictly between 4 and 200):
    first satisfying rule wins, no scoring or merging. -/
def taglineSpecChain (d : TaglineDoc) (description : String) : String :=
  match d.heroTexts.findSome? (fun t =>
      let tt := jsTrim t
      if !(tt = ("")) && 4 < tt.length && tt.length < 200 then some tt else none) with
  | some t => t
  | none =>
    if !(d.ogDescription = ("")) && d.ogDescription.length < 120 then d.ogDescription
    else if !(d.twitterDescription = ("")) && d.twitterDescription.length < 120 then
      d.twitterDescription
    else if !(jsTrim d.h1 = ("")) && (jsTrim d.h1).length < 150 then jsTrim d.h1
    else jsOrStr (headBeforeDot description) ("")

/-! ## Color extractor -/

def isHexDigitCh (c : Char) : Bool :=
  c.isDigit || ('a' ≤ c && c ≤ 'f') || ('A' ≤ c && c ≤ 'F')

def hexVal (c : Char) : Nat :=
  if c.isDigit then c.toNat - 48 else if 'a' ≤ c then c.toNat - 87 else c.toNat - 55

def hexRunToNat (cs : List Char) : Nat := cs.foldl (fun a c => a * 16 + hexVal c) 0

/-- Model of `parseInt(s, 16)`: skip whitespace, optional sign, maximal
    hex-digit run; `none` models `NaN`. -/
def jsParseIntHex (s : String) : Option Int :=
  match s.data.dropWhile isWsChar with
  | '-' :: rest =>
    let run := rest.takeWhile isHexDigitCh
    if run.isEmpty then none else some (-(hexRunToNat run : Int))
  | '+' :: rest =>
    let run := rest.takeWhile isHexDigitCh
    if run.isEmpty then none else some ((hexRunToNat run : Int))
  | rest =>
    let run := rest.takeWhile isHexDigitCh
    if run.isEmpty then none else some ((hexRunToNat run : Int))

/-- JavaScript `s.slice(a, b)` for `0 ≤ a ≤ b`. -/
def sliceStr (s : String) (a b : Nat) : String := ⟨(s.data.drop a).take (b - a)⟩

/-- Model of `isBlackOrWhite` (src/api/index.js:352-359).  The source
    compares `(r+g+b)/3` with 230 and 25 in floats; on integer channels
    that is exactly `r+g+b > 690` / `r+g+b < 75`, the form used here.
    A `NaN` channel makes both comparisons false. -/
def isBlackOrWhite (hex : String) : Bool :=
  if hex = ("") || hex.length < 6 then false
  else
    match jsParseIntHex (sliceStr hex 1 3), jsParseIntHex (sliceStr hex 3 5),
        jsParseIntHex (sliceStr hex 5 7) with
    | some r, some g, some b => (690 < r + g + b) || (r + g + b < 75)
    | _, _, _ => false

def isAnchoredHex (n : Nat) (cs : List Char) : Bool :=
  match cs with
  | '#' :: rest => rest.length = n && rest.all isHexDigitCh
  | _ => false

def natHexChars (n : Nat) : List Char := Nat.toDigits 16 n

/-- `n.toString(16).padStart(2, '0')` for a nonnegative value. -/
def natHexPad2 (n : Nat) : List Char :=
  let s := natHexChars n
  if s.length < 2 then '0' :: s else s

/-- `i.toString(16).padStart(2, '0')` (a negative value serializes with
    a leading `-`). -/
def intHexPad2 (i : Int) : List Char :=
  let s := if i < 0 then '-' :: natHexChars i.natAbs else natHexChars i.toNat
  if s.length < 2 then '0' :: s else s

def parseNatRun (cs : List Char) : Option (Nat × List Char) :=
  let run := cs.takeWhile Char.isDigit
  if run.isEmpty then none else some (digitsToNat run, cs.drop run.length)

/-- Tail of `/^rgba?\(\s*(\d+)\s*,\s*(\d+)\s*,\s*(\d+)/` after the
    opening parenthesis. -/
def rgbArgs (cs : List Char) : Option (Nat × Nat × Nat) :=
  match parseNatRun (cs.dropWhile isWsChar) with
  | none => none
  | some (r, c2) =>
    match c2.dropWhile isWsChar with
    | ',' :: c4 =>
      match parseNatRun (c4.dropWhile isWsChar) with
      | none => none
      | some (g, c6) =>
        match c6.dropWhile isWsChar with
        | ',' :: c8 =>
          match parseNatRun (c8.dropWhile isWsChar) with
          | none => none
          | some (b, _) => some (r, g, b)
        | _ => none
    | _ => none

def matchRgbHead (cs : List Char) : Option (Nat × Nat × Nat) :=
  match cs with
  | 'r' :: 'g' :: 'b' :: 'a' :: '(' :: rest => rgbArgs rest
  | 'r' :: 'g' :: 'b' :: '(' :: rest => rgbArgs rest
  | _ => none

def isDigitDot (c : Char) : Bool := c.isDigit || c = '.'

/-- `parseFloat` on a `[\d.]+` token: digits, optional dot, digits;
    `none` models `NaN` (no digit before the second dot). -/
def jsParseFloat (cs : List Char) : Option ℚ :=
  let d1 := cs.takeWhile Char.isDigit
  match cs.drop d1.length with
  | '.' :: rest2 =>
    let d2 := rest2.takeWhile Char.isDigit
    if d1.isEmpty && d2.isEmpty then none
    else some ((digitsToNat d1 : ℚ) + (digitsToNat d2 : ℚ) / ((10 : ℚ) ^ d2.length))
  | _ => if d1.isEmpty then none else some ((digitsToNat d1 : ℚ))

/-- Tail of `/^hsla?\(\s*([\d.]+)\s*,\s*([\d.]+)%\s*,\s*([\d.]+)%/`
    after the opening parenthesis. -/
def floatTokenArgs (cs : List Char) : Option (Option ℚ × Option ℚ × Option ℚ) :=
  let c1 := cs.dropWhile isWsChar
  let t1 := c1.takeWhile isDigitDot
  if t1.isEmpty then none
  else
    match (c1.drop t1.length).dropWhile isWsChar with
    | ',' :: c3 =>
      let c4 := c3.dropWhile isWsChar
      let t2 := c4.takeWhile isDigitDot
      if t2.isEmpty then none
      else
        match c4.drop t2.length with
        | '%' :: c5 =>
          match c5.dropWhile isWsChar with
          | ',' :: c6 =>
            let c7 := c6.dropWhile isWsChar
            let t3 := c7.takeWhile isDigitDot
            if t3.isEmpty then none
            else
              match c7.drop t3.length with
              | '%' :: _ => some (jsParseFloat t1, jsParseFloat t2, jsParseFloat t3)
              | _ => none
          | _ => none
        | _ => none
    | _ => none

def matchHslHead (cs : List Char) : Option (Option ℚ × Option ℚ × Option ℚ) :=
  match cs with
  | 'h' :: 's' :: 'l' :: 'a' :: '(' :: rest => floatTokenArgs rest
  | 'h' :: 's' :: 'l' :: '(' :: rest => floatTokenArgs rest
  | _ => none

/-- Truncating remainder (JavaScript `%`) on rationals. -/
def truncQ (q : ℚ) : Int := if 0 ≤ q then ⌊q⌋ else -⌊-q⌋

def jsMod (x y : ℚ) : ℚ := x - y * ((truncQ (x / y) : ℚ))

/-- JavaScript `Math.round` (half toward positive infinity). -/
def jsRound (x : ℚ) : Int := ⌊x + 1 / 2⌋

/-- Model of `hslToHex` (src/api/index.js:396-408) over exact rationals
    (the source computes in IEEE doubles; the claims settled here depend
    only on values where the two agree). -/
def hslToHex (h s l : ℚ) : String :=
  let s := s / 100
  let l := l / 100
  let a := s * min l (1 - l)
  let f : ℚ → List Char := fun n =>
    let k := jsMod (n + h / 30) 12
    let color := l - a * max (min (min (k - 3) (9 - k)) 1) (-1)
    intHexPad2 (jsRound (255 * color))
  ⟨upperList (('#' :: f 0) ++ f 8 ++ f 4)⟩

/-- Model of `normalizeColor` (src/api/index.js:364-394).  When the hsl
    regex matches but a component parses to `NaN`, every channel of the
    conversion is `NaN` and the source yields
    `"#NaNNaNNaN".toUpperCase()`. -/
def normalizeColor (colorStr : String) : Option String :=
  if colorStr = ("") then none
  else
    let cs := trimChars colorStr.data
    if isAnchoredHex 6 cs then some ⟨upperList cs⟩
    else if isAnchoredHex 3 cs then
      match cs with
      | _ :: r :: g :: b :: _ => some ⟨upperList ['#', r, r, g, g, b, b]⟩
      | _ => none
    else if isAnchoredHex 8 cs then some ⟨upperList (cs.take 7)⟩
    else
      match matchRgbHead cs with
      | some (r, g, b) =>
        some ⟨upperList (('#' :: natHexPad2 r) ++ natHexPad2 g ++ natHexPad2 b)⟩
      | none =>
        match matchHslHead cs with
        | some (some hv, some sv, some lv) => some (hslToHex hv sv lv)
        | some (_, _, _) => some ("#NANNANNAN")
        | none => none

def brandKws : List (List Char) :=
  [("color").data, ("bg").data, ("background").data, ("primary").data, ("secondary").data,
   ("accent").data, ("brand").data, ("text").data, ("foreground").data, ("surface").data,
   ("muted").data]

def wordDashChar (c : Char) : Bool := c.isAlpha || c.isDigit || c = '_' || c = '-'

def matchParenRun (cs : List Char) : Option (List Char × List Char) :=
  match cs with
  | '(' :: rest =>
    let run := rest.takeWhile (fun c => !(c = ')'))
    if run.isEmpty then none
    else
      match rest.drop run.length with
      | ')' :: rest2 => some (('(' :: run) ++ [')'], rest2)
      | _ => none
  | _ => none

/-- Match the value alternation
    `#[0-9a-fA-F]{3,8}|rgba?\([^)]+\)|hsl[a]?\([^)]+\)` (the `i` flag of
    the enclosing scans makes the function names case-insensitive);
    returns the matched text and the remainder. -/
def matchColorValue (cs : List Char) : Option (List Char × List Char) :=
  match cs with
  | '#' :: rest =>
    let run := rest.takeWhile isHexDigitCh
    if 3 ≤ run.length then
      let tk := run.take 8
      some ('#' :: tk, rest.drop tk.length)
    else none
  | _ =>
    if lowerList (cs.take 3) = ("rgb").data || lowerList (cs.take 3) = ("hsl").data then
      let pre := cs.take 3
      match cs.drop 3 with
      | c :: rest2 =>
        if Char.toLower c = 'a' then
          match matchParenRun rest2 with
          | some (p, r) => some ((pre ++ [c]) ++ p, r)
          | none => none
        else
          match matchParenRun (c :: rest2) with
          | some (p, r) => some (pre ++ p, r)
          | none => none
      | [] => none
    else none

/-- One attempt of the custom-property color regex
    (src/api/index.js:335) at the current position: `--`, a `[\w-]` run
    containing a brand keyword, `\s*:\s*`, a color value. -/
def matchVarColorAt (cs : List Char) : Option (List Char × List Char) :=
  match cs with
  | '-' :: '-' :: rest =>
    let nm := rest.takeWhile wordDashChar
    if brandKws.any (fun kw => containsSub kw (lowerList nm)) then
      match (rest.drop nm.length).dropWhile isWsChar with
      | ':' :: r3 => matchColorValue (r3.dropWhile isWsChar)
      | _ => none
    else none
  | _ => none

def scanVarColors : Nat → List Char → List (List Char)
  | 0, _ => []
  | _ + 1, [] => []
  | fuel + 1, c :: rest =>
    match matchVarColorAt (c :: rest) with
    | some (v, after) => v :: scanVarColors fuel after
    | none => scanVarColors fuel rest

/-- The property alternatives of src/api/index.js:343 in greedy
    alternation order (`background(?:-color)?` tries the long form
    first). -/
def colorPropNames : List (List Char) :=
  [("background-color").data, ("background").data, ("color").data,
   ("border-color").data, ("fill").data, ("stroke").data]

def matchPropCore (cs : List Char) : Option (List Char × List Char) :=
  colorPropNames.foldl
    (fun acc nm =>
      match acc with
      | some r => some r
      | none =>
        if lowerList (cs.take nm.length) = nm then
          match (cs.drop nm.length).dropWhile isWsChar with
          | ':' :: r3 => matchColorValue (r3.dropWhile isWsChar)
          | _ => none
        else none)
    none

def matchWsProp (cs : List Char) : Option (List Char × List Char) :=
  matchPropCore (cs.dropWhile isWsChar)

/-- One attempt of the property color regex (src/api/index.js:343) at
    the current position: the `(?:^|[{;])` anchor either matches a line
    start (zero-width, tried first) or consumes a `{` or `;`. -/
def matchColorPropAt (lineStart : Bool) (cs : List Char) : Option (List Char × List Char) :=
  match (if lineStart then matchWsProp cs else none) with
  | some r => some r
  | none =>
    match cs with
    | c :: rest => if c = '\x7b' || c = ';' then matchWsProp rest else none
    | [] => none

/-- The `g`/`m` scan of the property color regex; a matched value never
    ends in a newline, so after a match the line-start flag is off. -/
def scanColorProps : Nat → Bool → List Char → List (List Char)
  | 0, _, _ => []
  | _ + 1, _, [] => []
  | fuel + 1, lineStart, c :: rest =>
    match matchColorPropAt lineStart (c :: rest) with
    | some (v, after) => v :: scanColorProps fuel false after
    | none => scanColorProps fuel (c = '\n' || c = '\r') rest

/-- `colorMap.set(hex, (colorMap.get(hex) || 0) + v)`: update in place
    or append (JavaScript `Map` preserves insertion order). -/
def mapAdd (m : List (String × Nat)) (k : String) (v : Nat) : List (String × Nat) :=
  if m.any (fun p => p.1 = k) then
    m.map (fun p => if p.1 = k then (p.1, p.2 + v) else p)
  else m ++ [(k, v)]

def lookupWeight (m : List (String × Nat)) (k : String) : Option Nat :=
  (m.find? (fun p => p.1 = k)).map (fun p => p.2)

def addColorObs (w : Nat) (m : List (String × Nat)) (v : List Char) : List (String × Nat) :=
  match normalizeColor ⟨v⟩ with
  | some hex => if !(hex = ("")) && !isBlackOrWhite hex then mapAdd m hex w else m
  | none => m

/-- Model of `extractColorsFromCSS` (src/api/index.js:331-350): brand
    custom properties weigh 3, general color properties weigh 1. -/
def extractColorsFromCSS (cssText : String) : List (String × Nat) :=
  (scanColorProps (cssText.data.length + 1) true cssText.data).foldl (addColorObs 1)
    ((scanVarColors (cssText.data.length + 1) cssText.data).foldl (addColorObs 3) [])

/-- Model of `getLuminance` (src/api/index.js:413-418) over ℚ; `none`
    models `NaN`. -/
def getLuminance (hex : String) : Option ℚ :=
  match jsParseIntHex (sliceStr hex 1 3), jsParseIntHex (sliceStr hex 3 5),
      jsParseIntHex (sliceStr hex 5 7) with
  | some r, some g, some b =>
    some ((2126 / 10000) * ((r : ℚ) / 255) + (7152 / 10000) * ((g : ℚ) / 255) +
      (722 / 10000) * ((b : ℚ) / 255))
  | _, _, _ => none

def rgbCompStr (o : Option Int) : String :=
  match o with
  | some i => toString i
  | none => ("NaN")

/-- Model of `hexToRgb` (src/api/index.js:420-425). -/
def hexToRgb (hex : String) : String :=
  ("rgb(") ++ rgbCompStr (jsParseIntHex (sliceStr hex 1 3)) ++ (", ") ++
    rgbCompStr (jsParseIntHex (sliceStr hex 3 5)) ++ (", ") ++
    rgbCompStr (jsParseIntHex (sliceStr hex 5 7)) ++ (")")

structure ColorSample where
  hex : String
  rgb : String
  luminance : Option ℚ
  frequency : Nat
  label : String
deriving DecidableEq

/-- The first labeling pass (weight thresholds) of
    src/api/index.js:463. -/
def thresholdLabel (count : Nat) : String :=
  if 5 < count then ("Primary") else if 2 < count then ("Secondary") else ("Accent")

def mkColorSample (p : String × Nat) : ColorSample :=
  ⟨p.1, hexToRgb p.1, getLuminance p.1, p.2, thresholdLabel p.2⟩

/-- The forced relabeling of the top three sorted entries
    (src/api/index.js:467-469). -/
def relabelTop3 : List ColorSample → List ColorSample
  | [] => []
  | [a] => [{ a with label := ("Primary") }]
  | [a, b] => [{ a with label := ("Primary") }, { b with label := ("Secondary") }]
  | a :: b :: c :: rest =>
    { a with label := ("Primary") } :: { b with label := ("Secondary") } ::
      { c with label := ("Accent") } :: rest

/-- The sort / truncate / label tail of `extractColors`
    (src/api/index.js:454-471). -/
def labelColors (entries : List (String × Nat)) : List ColorSample :=
  relabelTop3 (((sortStable (fun a b => b.2 ≤ a.2) entries).take 8).map mkColorSample)

/-! ## Page documents, stylesheets and fonts -/

structure LinkEl where
  rel : String
  href : String
deriving DecidableEq

/-- The style-relevant content of a parsed page: every `link` element
    (rel and href attributes, missing = empty string) and the text of
    every `style` element, in document order. -/
structure PageDoc where
  links : List LinkEl
  styleTexts : List String
deriving DecidableEq

/-- Model of `fetchCSS` (src/api/index.js:74-85).  The network is an
    explicit parameter; `Except.error` models a rejected axios promise,
    which the `try`/`catch` converts to the empty string, and
    `response.data || ''` maps empty data to the empty string. -/
def fetchCSS (net : String → Except Unit String) (cssUrl : String) : String :=
  match net cssUrl with
  | Except.ok d => if d = ("") then ("") else d
  | Except.error _ => ("")

/-- The up-to-3 resolved external stylesheet URLs
    (src/api/index.js:296-302 and 437-446): push `resolveUrl` results
    for truthy hrefs, keep the truthy ones, take the first 3. -/
def stylesheetUrls (d : PageDoc) (baseUrl : String) : List String :=
  (((d.links.filter (fun l => l.rel = ("stylesheet"))).filterMap (fun l =>
      if l.href = ("") then none else some (resolveUrl baseUrl l.href))).filterMap
    (fun o =>
      match o with
      | some u => if u = ("") then none else some u
      | none => none)).take 3

/-- Model of `extractColors` (src/api/index.js:427-452) up to the
    accumulated frequency map; the concurrent fetches are modelled in
    document order (accumulation order only affects tie order in the
    sort, on which no claim depends). -/
def mergeMap (acc m2 : List (String × Nat)) : List (String × Nat) :=
  m2.foldl (fun a p => mapAdd a p.1 p.2) acc

def colorWeightMap (d : PageDoc) (baseUrl : String) (net : String → Except Unit String) :
    List (String × Nat) :=
  (stylesheetUrls d baseUrl).foldl (fun m u => mergeMap m (extractColorsFromCSS (fetchCSS net u)))
    (d.styleTexts.foldl (fun m t => mergeMap m (extractColorsFromCSS t)) [])

def extractColors (d : PageDoc) (baseUrl : String) (net : String → Except Unit String) :
    List ColorSample :=
  labelColors (colorWeightMap d baseUrl net)

/-- `Set.prototype.add`: append if not present. -/
def addToSet (acc : List String) (x : String) : List String :=
  if acc.contains x then acc else acc ++ [x]

def stripQuotes (cs : List Char) : List Char :=
  cs.filter (fun c => !(c = '\'' || c = '"'))

def genericFamilies : List String :=
  [("serif"), ("sans-serif"), ("monospace"), ("cursive"), ("fantasy"),
   ("inherit"), ("initial"), ("unset")]

/-- Continuation of the `@font-face` regex (src/api/index.js:223) after
    a `font-family` occurrence: `\s*:\s*['"]?([^;'"]+)['"]?`; when the
    capture would be empty after maximal `\s*`, the engine backtracks
    one whitespace character into the capture. -/
def ffCont (t : List Char) : Option (List Char × List Char) :=
  match t.dropWhile isWsChar with
  | ':' :: t2 =>
    let ws := t2.takeWhile isWsChar
    let t3 := t2.dropWhile isWsChar
    let t4 := match t3 with
      | c :: r => if c = '\'' || c = '"' then r else t3
      | [] => t3
    let grp := t4.takeWhile (fun c => !(c = ';' || c = '\'' || c = '"'))
    if !grp.isEmpty then
      let t5 := t4.drop grp.length
      let t6 := match t5 with
        | c :: r => if c = '\'' || c = '"' then r else t5
        | [] => t5
      some (grp, t6)
    else
      match ws.getLast? with
      | some w =>
        let t6 := match t3 with
          | c :: r => if c = '\'' || c = '"' then r else t3
          | [] => t3
        some ([w], t6)
      | none => none
  | _ => none

def tryFFAt (full : List Char) (bodyLen : Nat) (p : Nat) : Option (List Char × List Char) :=
  if p + 11 ≤ bodyLen && lowerList ((full.drop p).take 11) = ("font-family").data then
    ffCont (full.drop (p + 11))
  else none

/-- Greedy `[^}]*` backtracking: try the last `font-family` occurrence
    inside the brace-free body first, then earlier ones. -/
def findFFBack (full : List Char) (bodyLen : Nat) : Nat → Option (List Char × List Char)
  | 0 => tryFFAt full bodyLen 0
  | p + 1 =>
    match tryFFAt full bodyLen (p + 1) with
    | some r => some r
    | none => findFFBack full bodyLen p

/-- One attempt of the `@font-face` regex (src/api/index.js:223) at the
    current position. -/
def matchFontFaceAt (cs : List Char) : Option (List Char × List Char) :=
  if lowerList (cs.take 10) = ("@font-face").data then
    match (cs.drop 10).dropWhile isWsChar with
    | '\x7b' :: full =>
      let bodyLen := (full.takeWhile (fun c => !(c = '\x7d'))).length
      findFFBack full bodyLen bodyLen
    | _ => none
  else none

def scanFontFace : Nat → List Char → List (List Char)
  | 0, _ => []
  | _ + 1, [] => []
  | fuel + 1, c :: rest =>
    match matchFontFaceAt (c :: rest) with
    | some (g, after) => g :: scanFontFace fuel after
    | none => scanFontFace fuel rest

/-- One attempt of `/font-family\s*:\s*([^;}{]+)/i`
    (src/api/index.js:230); when the capture would be empty after
    maximal `\s*`, the engine backtracks one whitespace character into
    the capture. -/
def matchFontFamilyAt (cs : List Char) : Option (List Char × List Char) :=
  if lowerList (cs.take 11) = ("font-family").data then
    match (cs.drop 11).dropWhile isWsChar with
    | ':' :: t2 =>
      let ws := t2.takeWhile isWsChar
      let t3 := t2.dropWhile isWsChar
      let grp := t3.takeWhile (fun c => !(c = ';' || c = '\x7d' || c = '\x7b'))
      if !grp.isEmpty then some (grp, t3.drop grp.length)
      else
        match ws.getLast? with
        | some w => some ([w], t3)
        | none => none
    | _ => none
  else none

def scanFontFamily : Nat → List Char → List (List Char)
  | 0, _ => []
  | _ + 1, [] => []
  | fuel + 1, c :: rest =>
    match matchFontFamilyAt (c :: rest) with
    | some (g, after) => g :: scanFontFamily fuel after
    | none => scanFontFamily fuel rest

/-- One attempt of the custom-property font regex
    `--[\w-]*font[\w-]*\s*:\s*['"]?([A-Za-z][^;'"]+)['"]?` with the `i`
    flag (src/api/index.js:242). -/
def matchVarFontAt (cs : List Char) : Option (List Char × List Char) :=
  match cs with
  | '-' :: '-' :: rest =>
    let nm := rest.takeWhile wordDashChar
    if containsSub (("font").data) (lowerList nm) then
      match (rest.drop nm.length).dropWhile isWsChar with
      | ':' :: r3 =>
        let t3 := r3.dropWhile isWsChar
        let t4 := match t3 with
          | c :: r => if c = '\'' || c = '"' then r else t3
          | [] => t3
        match t4 with
        | c :: r =>
          if c.isAlpha then
            let run := r.takeWhile (fun x => !(x = ';' || x = '\'' || x = '"'))
            if run.isEmpty then none
            else
              let t5 := r.drop run.length
              let t6 := match t5 with
                | q :: r2 => if q = '\'' || q = '"' then r2 else t5
                | [] => t5
              some (c :: run, t6)
          else none
        | [] => none
      | _ => none
    else none
  | _ => none

def scanVarFonts : Nat → List Char → List (List Char)
  | 0, _ => []
  | _ + 1, [] => []
  | fuel + 1, c :: rest =>
    match matchVarFontAt (c :: rest) with
    | some (g, after) => g :: scanVarFonts fuel after
    | none => scanVarFonts fuel rest

/-- Model of `extractFontsFromCSS` (src/api/index.js:219-249):
    `@font-face` families, then `font-family` declarations (split on
    commas, generic keywords and out-of-window lengths dropped), then
    font-named custom properties. -/
def addFontFamilySeg (acc2 : List String) (seg : List Char) : List String :=
  if !(genericFamilies.contains ⟨lowerList (stripQuotes (trimChars seg))⟩) &&
      1 < (stripQuotes (trimChars seg)).length && (stripQuotes (trimChars seg)).length < 60 then
    addToSet acc2 ⟨stripQuotes (trimChars seg)⟩
  else acc2

def addVarFontVal (acc : List String) (g : List Char) : List String :=
  if 1 < (stripQuotes (trimChars g)).length && (stripQuotes (trimChars g)).length < 60 then
    addToSet acc ⟨stripQuotes (trimChars g)⟩
  else acc

def extractFontsFromCSS (cssText : String) : List String :=
  (scanVarFonts (cssText.data.length + 1) cssText.data).foldl addVarFontVal
    ((scanFontFamily (cssText.data.length + 1) cssText.data).foldl
      (fun acc g => (splitOnChar ',' g).foldl addFontFamilySeg acc)
      ((scanFontFace (cssText.data.length + 1) cssText.data).foldl
        (fun acc g => addToSet acc ⟨stripQuotes (trimChars g)⟩) []))

/-- Leftmost `/family=([^&]+)/` over a link href. -/
def findFamilyParam : Nat → List Char → Option (List Char)
  | 0, _ => none
  | _ + 1, [] => none
  | fuel + 1, c :: rest =>
    if ("family=").data.isPrefixOf (c :: rest) then
      let run := ((c :: rest).drop 7).takeWhile (fun x => !(x = '&'))
      if run.isEmpty then findFamilyParam fuel rest else some run
    else findFamilyParam fuel rest

/-- Leftmost `/family=([^&'"]+)/` over an `@import` match. -/
def findFamilyParamQ : Nat → List Char → Option (List Char)
  | 0, _ => none
  | _ + 1, [] => none
  | fuel + 1, c :: rest =>
    if ("family=").data.isPrefixOf (c :: rest) then
      let run := ((c :: rest).drop 7).takeWhile (fun x => !(x = '&' || x = '\'' || x = '"'))
      if run.isEmpty then findFamilyParamQ fuel rest else some run
    else findFamilyParamQ fuel rest

/-- `family=` value processing (src/api/index.js:261-264): split on `|`,
    drop the `:` weight suffix, `+` to space, trim; falsy names are
    skipped. -/
def familyNamesOf (fp : List Char) : List String :=
  (splitOnChar '|' fp).filterMap (fun e =>
    let n := trimChars ((e.takeWhile (fun c => !(c = ':'))).map (fun c => if c = '+' then ' ' else c))
    if n.isEmpty then none else some ⟨n⟩)

/-- The `/fonts\.googleapis\.com\/css[^'"]+/g` scan over a style block
    (src/api/index.js:269). -/
def scanGoogleImports : Nat → List Char → List (List Char)
  | 0, _ => []
  | _ + 1, [] => []
  | fuel + 1, c :: rest =>
    if ("fonts.googleapis.com/css").data.isPrefixOf (c :: rest) then
      let run := ((c :: rest).drop 24).takeWhile (fun x => !(x = '\'' || x = '"'))
      if run.isEmpty then scanGoogleImports fuel rest
      else (("fonts.googleapis.com/css").data ++ run) ::
        scanGoogleImports fuel (((c :: rest).drop 24).drop run.length)
    else scanGoogleImports fuel rest

/-- Model of `extractGoogleFonts` (src/api/index.js:254-282). -/
def extractGoogleFonts (d : PageDoc) : List String :=
  d.styleTexts.foldl
    (fun acc t =>
      (scanGoogleImports (t.data.length + 1) t.data).foldl
        (fun acc2 m =>
          match findFamilyParamQ (m.length + 1) m with
          | some fp => (familyNamesOf fp).foldl addToSet acc2
          | none => acc2)
        acc)
    ((d.links.filter (fun l => containsSub (("fonts.googleapis.com").data) l.href.data)).foldl
      (fun acc l =>
        match findFamilyParam (l.href.data.length + 1) l.href.data with
        | some fp => (familyNamesOf fp).foldl addToSet acc
        | none => acc)
      [])

def monoKws : List String :=
  [("mono"), ("code"), ("console"), ("courier"), ("fira"), ("jetbrains"), ("hack"),
   ("source code")]

def serifNameKws : List String :=
  [("garamond"), ("georgia"), ("times"), ("playfair"), ("merriweather"), ("lora")]

/-- `/serif(?!less)/i.test(name)`: an occurrence of `serif` not
    immediately followed by `less`. -/
def serifNotLess : List Char → Bool
  | [] => false
  | c :: rest =>
    (("serif").data.isPrefixOf (lowerList (c :: rest)) &&
      !(("less").data.isPrefixOf (lowerList ((c :: rest).drop 5)))) ||
    serifNotLess rest

/-- The category mapping of src/api/index.js:314-322. -/
def fontCategory (name : String) : String :=
  if monoKws.any (fun k => containsSubCI k.data name.data) then ("Monospace")
  else if serifNotLess name.data || serifNameKws.any (fun k => containsSubCI k.data name.data) then
    ("Serif")
  else ("Sans-Serif")

structure FontEntry where
  name : String
  category : String
  sample : String
deriving DecidableEq

def mkFontEntry (n : String) : FontEntry := ⟨n, fontCategory n, ("Aa Bb Cc 123")⟩

/-- The deduplicated name set of `extractFonts` before external
    stylesheets: Google-Fonts families first, then inline style
    blocks. -/
def baseFontNames (d : PageDoc) : List String :=
  d.styleTexts.foldl (fun acc t => (extractFontsFromCSS t).foldl addToSet acc)
    ((extractGoogleFonts d).foldl addToSet [])

/-- Model of `extractFonts` (src/api/index.js:284-323); the concurrent
    stylesheet fetches are modelled in document order. -/
def extractFonts (d : PageDoc) (baseUrl : String) (net : String → Except Unit String) :
    List FontEntry :=
  (((stylesheetUrls d baseUrl).foldl
    (fun acc u => (extractFontsFromCSS (fetchCSS net u)).foldl addToSet acc)
    (baseFontNames d)).take 6).map mkFontEntry

/-! ## Analyze-route error mapping -/

/-- The error object the `/api/analyze` catch-handler inspects:
    `err.response?.status`, `err.code`, `err.message`. -/
structure AnalyzeError where
  status : Option Nat
  code : Option String
  message : String

/-- Model of the catch-handler of the analyze route
    (src/api/index.js:521-534): the HTTP status sent to the client
    (403 access blocked, 404 host unreachable, 408 timeout,
    500 generic). -/
def classifyAnalyzeError (e : AnalyzeError) : Nat :=
  if e.status = some 403 || e.status = some 401 then 403
  else if e.code = some ("ECONNREFUSED") || e.code = some ("ENOTFOUND") then 404
  else if e.code = some ("ETIMEDOUT") || containsSub (("timeout").data) e.message.data then 408
  else 500

/-! ## Concrete inputs used by witnesses and counterexamples -/

def cssBrandExample : String := (":root\x7b--brand-color:#FF0000;\x7d a\x7bcolor:#FFFFFF;\x7d")

def cexLogoDoc : LogoDoc := ⟨("http://"), (""), [("/icon.png")], [], [], ("")⟩

def emptyLogoDoc : LogoDoc := ⟨(""), (""), [], [], [], ("")⟩

def ogLogoDoc : LogoDoc := ⟨("logo.png"), (""), [], [], [], ("")⟩

def googleLinkDoc : PageDoc :=
  ⟨[⟨(""), ("https://fonts.googleapis.com/css?family=Roboto:400,700|Open+Sans")⟩], []⟩

def heroTaglineDoc : TaglineDoc :=
  ⟨[(""), (""), ("Build Better"), (""), (""), (""), (""), ("Build Better"), (""), (""), ("")],
   (""), (""), ("Build Better")⟩

def cexTaglineDoc : TaglineDoc :=
  ⟨[("Oops"), (""), (""), (""), (""), (""), (""), (""), (""), (""), ("")], (""), (""), ("")⟩

def noNet : String → Except Unit String := fun _ => Except.error ()

/-- The parse of `https://example.com/` in the URL model. -/
def exUrl : Url := ⟨true, ("example.com").data, ['/'], [], []⟩

/-! ## Checkers used to state the claims -/

/-- The 6-digit uppercase hex format the spec requires of normalized
    colors. -/
def isSixDigitUpperHex (s : String) : Bool :=
  match s.data with
  | '#' :: rest => rest.length = 6 && rest.all (fun c => c.isDigit || ('A' ≤ c && c ≤ 'F'))
  | _ => false

/-- Weakly descending check on the frequency sequence. -/
def descOkN : List Nat → Bool
  | a :: b :: t => (b ≤ a) && descOkN (b :: t)
  | _ => true

/-- The two-pass label rule by sorted rank: ranks 1–3 are forced
    Primary/Secondary/Accent, later ranks keep the threshold label. -/
def labelRankOk : List ColorSample → Bool
  | [] => true
  | a :: rest =>
    a.label == ("Primary") &&
      (match rest with
       | [] => true
       | b :: rest2 =>
         b.label == ("Secondary") &&
           (match rest2 with
            | [] => true
            | c :: rest3 =>
              c.label == ("Accent") &&
                rest3.all (fun x => x.label == thresholdLabel x.frequency)))

/-! ## General list lemmas -/

theorem dropWhile_eq_self_of_not {α : Type _} (p : α → Bool) {l : List α}
    (h : ∀ c ∈ l, p c = false) : l.dropWhile p = l := by
  cases l with
  | nil => rfl
  | cons c t => simp [List.dropWhile_cons, h c (by simp)]

theorem takeWhile_append_all {α : Type _} (p : α → Bool) (a b : List α)
    (h : ∀ c ∈ a, p c = true) : (a ++ b).takeWhile p = a ++ b.takeWhile p := by
  induction a with
  | nil => simp
  | cons c t ih =>
    simp only [List.cons_append, List.takeWhile_cons, h c (by simp), if_true]
    rw [ih (fun x hx => h x (by simp [hx]))]

theorem dropWhile_append_all {α : Type _} (p : α → Bool) (a b : List α)
    (h : ∀ c ∈ a, p c = true) : (a ++ b).dropWhile p = b.dropWhile p := by
  induction a with
  | nil => simp
  | cons c t ih =>
    simp only [List.cons_append, List.dropWhile_cons, h c (by simp), if_true]
    exact ih (fun x hx => h x (by simp [hx]))

theorem takeWhile_eq_nil_of_head {α : Type _} (p : α → Bool) (b : List α)
    (h : b = [] ∨ ∃ c t, b = c :: t ∧ p c = false) : b.takeWhile p = [] := by
  rcases h with h | ⟨c, t, rfl, hc⟩
  · simp [h]
  · simp [List.takeWhile_cons, hc]

theorem dropWhile_eq_self_of_head {α : Type _} (p : α → Bool) (b : List α)
    (h : b = [] ∨ ∃ c t, b = c :: t ∧ p c = false) : b.dropWhile p = b := by
  rcases h with h | ⟨c, t, rfl, hc⟩
  · simp [h]
  · simp [List.dropWhile_cons, hc]

theorem foldl_preserves {α β : Type _} (f : β → α → β) (P : β → Prop)
    (hf : ∀ b a, P b → P (f b a)) :
    ∀ (l : List α) (b : β), P b → P (l.foldl f b) := by
  intro l
  induction l with
  | nil => exact fun b hb => hb
  | cons x xs ih => exact fun b hb => ih (f b x) (hf b x hb)

/-! ## Lemmas about the stable sort -/

theorem insStable_perm {α : Type _} (le : α → α → Bool) (x : α) :
    ∀ l : List α, (insStable le x l).Perm (x :: l) := by
  intro l
  induction l with
  | nil => exact List.Perm.refl _
  | cons y ys ih =>
    unfold insStable
    split
    · exact (ih.cons y).trans (List.Perm.swap x y ys)
    · exact List.Perm.refl _

theorem sortStable_perm {α : Type _} (le : α → α → Bool) :
    ∀ l : List α, (sortStable le l).Perm l := by
  intro l
  induction l with
  | nil => exact List.Perm.refl _
  | cons x xs ih => exact (insStable_perm le x (sortStable le xs)).trans (ih.cons x)

theorem insStable_pairwise {α : Type _} (le : α → α → Bool)
    (htot : ∀ a b, (le a b || le b a) = true)
    (htrans : ∀ a b c, le a b = true → le b c = true → le a c = true) (x : α) :
    ∀ {l : List α}, l.Pairwise (fun a b => le a b = true) →
      (insStable le x l).Pairwise (fun a b => le a b = true) := by
  intro l
  induction l with
  | nil => intro _; simp [insStable]
  | cons y ys ih =>
    intro h
    rw [List.pairwise_cons] at h
    obtain ⟨hy, hys⟩ := h
    unfold insStable
    split
    · rename_i hcond
      rw [Bool.and_eq_true, Bool.not_eq_true'] at hcond
      rw [List.pairwise_cons]
      refine ⟨?_, ih hys⟩
      intro z hz
      rw [(insStable_perm le x ys).mem_iff] at hz
      rcases List.mem_cons.mp hz with rfl | hz
      · exact hcond.1
      · exact hy z hz
    · rename_i hcond
      rw [Bool.and_eq_true, Bool.not_eq_true'] at hcond
      push_neg at hcond
      have hxy : le x y = true := by
        by_cases h1 : le y x = true
        · have := hcond h1
          simpa using this
        · have := htot x y
          rcases Bool.or_eq_true_iff.mp this with h2 | h2
          · exact h2
          · exact absurd h2 h1
      rw [List.pairwise_cons]
      refine ⟨?_, List.pairwise_cons.mpr ⟨hy, hys⟩⟩
      intro z hz
      rcases List.mem_cons.mp hz with rfl | hz
      · exact hxy
      · exact htrans x y z hxy (hy z hz)

theorem sortStable_pairwise {α : Type _} (le : α → α → Bool)
    (htot : ∀ a b, (le a b || le b a) = true)
    (htrans : ∀ a b c, le a b = true → le b c = true → le a c = true) :
    ∀ l : List α, (sortStable le l).Pairwise (fun a b => le a b = true) := by
  intro l
  induction l with
  | nil => simp [sortStable]
  | cons x xs ih => exact insStable_pairwise le htot htrans x ih

theorem sortStable_of_pairwise {α : Type _} (le : α → α → Bool) :
    ∀ {l : List α}, l.Pairwise (fun a b => le a b = true) → sortStable le l = l := by
  intro l
  induction l with
  | nil => intro _; rfl
  | cons x xs ih =>
    intro h
    rw [List.pairwise_cons] at h
    obtain ⟨hx, hxs⟩ := h
    unfold sortStable
    rw [ih hxs]
    cases xs with
    | nil => rfl
    | cons y ys =>
      unfold insStable
      rw [if_neg]
      simp [hx y (by simp)]

/-! ## Character-class lemmas for the URL model -/

theorem char_eq_of_toNat {c d : Char} (h : c.toNat = d.toNat) : c = d := by
  apply Char.eq_of_val_eq
  exact UInt32.toNat.inj h

theorem takeWhile_cons_inv {α : Type _} {p : α → Bool} {l : List α} {c : α} {t : List α}
    (h : l.takeWhile p = c :: t) : (∃ t', l = c :: t') ∧ p c = true := by
  cases l with
  | nil => simp at h
  | cons x xs =>
    rw [List.takeWhile_cons] at h
    by_cases hx : p x = true
    · rw [if_pos hx] at h
      injection h with h1 h2
      subst h1
      exact ⟨⟨xs, rfl⟩, hx⟩
    · rw [if_neg hx] at h
      simp at h

theorem dropWhile_head_not {α : Type _} {p : α → Bool} :
    ∀ {l : List α} {c : α} {t : List α}, l.dropWhile p = c :: t → p c = false := by
  intro l
  induction l with
  | nil => intro c t h; simp at h
  | cons x xs ih =>
    intro c t h
    rw [List.dropWhile_cons] at h
    by_cases hx : p x = true
    · rw [if_pos hx] at h
      exact ih h
    · rw [if_neg hx] at h
      injection h with h1 h2
      subst h1
      exact Bool.eq_false_iff.mpr hx

theorem hostChar_facts {c : Char} (h : hostChar c = true) :
    authStop c = false ∧ (c.toNat = 64 || c.toNat = 58) = false ∧
      urlDisplayChar c = true ∧ Char.toLower c = c := by
  simp only [hostChar, Bool.or_eq_true, Bool.and_eq_true, decide_eq_true_eq] at h
  refine ⟨?_, ?_, ?_, ?_⟩
  · simp only [authStop, Bool.or_eq_false_iff, decide_eq_false_iff_not]
    omega
  · simp only [Bool.or_eq_false_iff, decide_eq_false_iff_not]
    omega
  · simp only [urlDisplayChar, Bool.and_eq_true, decide_eq_true_eq]
    omega
  · simp only [Char.toLower, Char.toNat] at *
    rw [if_neg]
    omega

theorem pathChar_facts {c : Char} (h : pathChar c = true) :
    pathStop c = false ∧ urlDisplayChar c = true := by
  simp only [pathChar, urlDisplayChar, Bool.and_eq_true, Bool.not_eq_true',
    Bool.or_eq_false_iff, decide_eq_true_eq, decide_eq_false_iff_not] at h
  constructor
  · simp only [pathStop, Bool.or_eq_false_iff, decide_eq_false_iff_not]
    omega
  · simp only [urlDisplayChar, Bool.and_eq_true, decide_eq_true_eq]
    omega

theorem queryChar_facts {c : Char} (h : queryChar c = true) :
    (decide (c.toNat = 35)) = false ∧ urlDisplayChar c = true := by
  simp only [queryChar, pathChar, urlDisplayChar, Bool.or_eq_true, Bool.and_eq_true,
    Bool.not_eq_true', Bool.or_eq_false_iff, decide_eq_true_eq, decide_eq_false_iff_not] at h
  constructor
  · simp only [decide_eq_false_iff_not]
    omega
  · simp only [urlDisplayChar, Bool.and_eq_true, decide_eq_true_eq]
    omega

theorem fragChar_display {c : Char} (h : fragChar c = true) : urlDisplayChar c = true := by
  simp only [fragChar, queryChar, pathChar, urlDisplayChar, Bool.or_eq_true, Bool.and_eq_true,
    Bool.not_eq_true', Bool.or_eq_false_iff, decide_eq_true_eq, decide_eq_false_iff_not] at h
  simp only [urlDisplayChar, Bool.and_eq_true, decide_eq_true_eq]
  omega

theorem display_facts {c : Char} (h : urlDisplayChar c = true) :
    (!(c.toNat = 9 || c.toNat = 10 || c.toNat = 13)) = true ∧
      (decide (c.toNat ≤ 32)) = false ∧ isWsChar c = false := by
  simp only [urlDisplayChar, Bool.and_eq_true, decide_eq_true_eq] at h
  refine ⟨?_, ?_, ?_⟩
  · simp only [Bool.not_eq_true', Bool.or_eq_false_iff, decide_eq_false_iff_not]
    omega
  · simp only [decide_eq_false_iff_not]
    omega
  · simp only [isWsChar, Bool.or_eq_false_iff, decide_eq_false_iff_not]
    refine ⟨⟨⟨⟨⟨?_, ?_⟩, ?_⟩, ?_⟩, ?_⟩, ?_⟩ <;>
      (intro he; subst he; exact absurd h.1 (by decide))

/-! ## Round trip of the URL model -/

theorem parseQueryFrag_ok {https : Bool} {host path rest3 : List Char} {u : Url}
    (hh1 : host ≠ []) (hh2 : host.all hostChar = true)
    (hp1 : ∃ t, path = '/' :: t) (hp2 : path.all pathChar = true)
    (hp3 : hasDotSegment path = false)
    (hr : rest3 = [] ∨ ∃ c t, rest3 = c :: t ∧ pathStop c = true)
    (h : parseQueryFrag https host path rest3 = some u) : UrlOk u := by
  unfold parseQueryFrag at h
  by_cases h6 : (!(rest3.takeWhile (fun c => !(c.toNat = 35))).all queryChar) = true
  · rw [if_pos h6] at h; simp at h
  rw [if_neg h6] at h
  by_cases h7 : (!(rest3.dropWhile (fun c => !(c.toNat = 35))).all fragChar) = true
  · rw [if_pos h7] at h; simp at h
  rw [if_neg h7] at h
  injection h with h
  subst h
  replace h6 : (rest3.takeWhile (fun c => !(c.toNat = 35))).all queryChar = true := by
    simpa using h6
  replace h7 : (rest3.dropWhile (fun c => !(c.toNat = 35))).all fragChar = true := by
    simpa using h7
  refine ⟨hh1, hh2, hp1, hp2, hp3, h6, ?_, h7, ?_⟩
  · show rest3.takeWhile (fun c => !(c.toNat = 35)) = [] ∨
      ∃ t, rest3.takeWhile (fun c => !(c.toNat = 35)) = '?' :: t
    rcases hr with hr | ⟨c, t, ht, hstop⟩
    · left; rw [hr]; rfl
    · rw [ht, List.takeWhile_cons]
      by_cases hc35 : (!(decide (c.toNat = 35))) = true
      · rw [if_pos hc35]
        right
        have hc : c = '?' := by
          apply char_eq_of_toNat
          simp only [Bool.not_eq_true', decide_eq_false_iff_not] at hc35
          simp only [pathStop, Bool.or_eq_true, decide_eq_true_eq] at hstop
          show c.toNat = 63
          omega
        exact ⟨_, by rw [hc]⟩
      · rw [if_neg hc35]
        left; rfl
  · show rest3.dropWhile (fun c => !(c.toNat = 35)) = [] ∨
      ∃ t, rest3.dropWhile (fun c => !(c.toNat = 35)) = '#' :: t
    cases hf : rest3.dropWhile (fun c => !(c.toNat = 35)) with
    | nil => exact Or.inl rfl
    | cons c t =>
      right
      have h35 : c.toNat = 35 := by simpa using dropWhile_head_not hf
      have hc : c = '#' := char_eq_of_toNat h35
      exact ⟨t, by rw [hc]⟩

theorem parsePathOn_ok {https : Bool} {host rest2 : List Char} {u : Url}
    (hh1 : host ≠ []) (hh2 : host.all hostChar = true)
    (hr : rest2 = [] ∨ ∃ c t, rest2 = c :: t ∧ authStop c = true)
    (h : parsePathOn https host rest2 = some u) : UrlOk u := by
  unfold parsePathOn at h
  by_cases h4 : (!(pathOf rest2).all pathChar) = true
  · rw [if_pos h4] at h; simp at h
  rw [if_neg h4] at h
  by_cases h5 : hasDotSegment (pathOf rest2) = true
  · rw [if_pos h5] at h; simp at h
  rw [if_neg h5] at h
  replace h4 : (pathOf rest2).all pathChar = true := by simpa using h4
  refine parseQueryFrag_ok hh1 hh2 ?_ h4 (Bool.eq_false_iff.mpr h5) ?_ h
  · unfold pathOf
    rcases hr with hr | ⟨c, t, ht, hstop⟩
    · rw [hr]
      simp
    · rw [ht, List.takeWhile_cons]
      by_cases hcp : (!pathStop c) = true
      · rw [if_pos hcp]
        have hc : c = '/' := by
          apply char_eq_of_toNat
          simp only [Bool.not_eq_true', pathStop, Bool.or_eq_false_iff,
            decide_eq_false_iff_not] at hcp
          simp only [authStop, Bool.or_eq_true, decide_eq_true_eq] at hstop
          show c.toNat = 47
          omega
        rw [List.isEmpty_cons, if_neg (by simp)]
        exact ⟨_, by rw [hc]⟩
      · rw [if_neg hcp]
        simp
  · cases hf : rest2.dropWhile (fun c => !pathStop c) with
    | nil => exact Or.inl rfl
    | cons c t =>
      refine Or.inr ⟨c, t, rfl, ?_⟩
      simpa using dropWhile_head_not hf

theorem parseAuthority_ok {https : Bool} {rest : List Char} {u : Url}
    (h : parseAuthority https rest = some u) : UrlOk u := by
  unfold parseAuthority at h
  by_cases h1 : (rest.takeWhile (fun c => !authStop c)).isEmpty = true
  · rw [if_pos h1] at h; simp at h
  rw [if_neg h1] at h
  by_cases h2 : ((rest.takeWhile (fun c => !authStop c)).any
      (fun c => c.toNat = 64 || c.toNat = 58)) = true
  · rw [if_pos h2] at h; simp at h
  rw [if_neg h2] at h
  by_cases h3 : (!(lowerList (rest.takeWhile (fun c => !authStop c))).all hostChar) = true
  · rw [if_pos h3] at h; simp at h
  rw [if_neg h3] at h
  replace h3 : (lowerList (rest.takeWhile (fun c => !authStop c))).all hostChar = true := by
    simpa using h3
  refine parsePathOn_ok ?_ h3 ?_ h
  · intro he
    rw [lowerList, List.map_eq_nil_iff] at he
    rw [he] at h1
    exact h1 rfl
  · cases hf : rest.dropWhile (fun c => !authStop c) with
    | nil => exact Or.inl rfl
    | cons c t =>
      refine Or.inr ⟨c, t, rfl, ?_⟩
      have hstop := dropWhile_head_not hf
      simpa using hstop

theorem parseUrlChars_ok {cs : List Char} {u : Url} (h : parseUrlChars cs = some u) :
    UrlOk u := by
  unfold parseUrlChars at h
  rcases hs : schemeSplit (stripUrlInput cs) with _ | ⟨https, rest⟩ <;> rw [hs] at h
  · simp at h
  · exact parseAuthority_ok h

theorem parseUrl_ok {s : String} {u : Url} (h : parseUrl s = some u) : UrlOk u :=
  parseUrlChars_ok h
theorem urlOk_display {u : Url} (h : UrlOk u) : ∀ c ∈ hrefChars u, urlDisplayChar c = true := by
  obtain ⟨_, hh2, _, hp2, _, hq1, _, hf1, _⟩ := h
  intro c hc
  unfold hrefChars at hc
  rw [List.mem_append] at hc
  rcases hc with hc | hc
  · have hm : c ∈ (("https://").data) ∨ c ∈ (("http://").data) := by
      unfold schemePart at hc
      split at hc
      · left; exact hc
      · right; exact hc
    rcases hm with hm | hm <;> fin_cases hm <;> decide
  · rw [List.mem_append] at hc
    rcases hc with hc | hc
    · exact (hostChar_facts (List.all_eq_true.mp hh2 c hc)).2.2.1
    · rw [List.mem_append] at hc
      rcases hc with hc | hc
      · exact (pathChar_facts (List.all_eq_true.mp hp2 c hc)).2
      · rw [List.mem_append] at hc
        rcases hc with hc | hc
        · exact (queryChar_facts (List.all_eq_true.mp hq1 c hc)).2
        · exact fragChar_display (List.all_eq_true.mp hf1 c hc)

theorem stripUrlInput_eq_self {l : List Char} (h : ∀ c ∈ l, urlDisplayChar c = true) :
    stripUrlInput l = l := by
  unfold stripUrlInput
  rw [List.filter_eq_self.mpr (fun c hc => (display_facts (h c hc)).1)]
  rw [dropWhile_eq_self_of_not _ (fun c hc => (display_facts (h c hc)).2.1)]
  rw [dropWhile_eq_self_of_not _
    (fun c hc => (display_facts (h c (List.mem_reverse.mp hc))).2.1)]
  exact List.reverse_reverse l

theorem schemeSplit_scheme (b : Bool) (tail : List Char) :
    schemeSplit (schemePart b ++ tail) = some (b, tail) := by
  cases b
  · show schemeSplit ((("http://").data) ++ tail) = some (false, tail)
    unfold schemeSplit
    rw [show (7 : Nat) = (("http://").data).length from rfl]
    rw [List.take_left, List.drop_left]
    rw [if_pos (by decide)]
  · show schemeSplit ((("https://").data) ++ tail) = some (true, tail)
    unfold schemeSplit
    have h7 : (((("https://").data) ++ tail).take 7) = ("https:/").data := by
      rw [List.take_append_eq_append_take]
      simp
    rw [h7, if_neg (by decide)]
    rw [show (8 : Nat) = (("https://").data).length from rfl]
    rw [List.take_left, List.drop_left]
    rw [if_pos (by decide)]

theorem schemeSplit_href (u : Url) :
    schemeSplit (hrefChars u) =
      some (u.https, u.host ++ (u.path ++ (u.query ++ u.frag))) := by
  show schemeSplit (schemePart u.https ++ (u.host ++ (u.path ++ (u.query ++ u.frag)))) =
    some (u.https, u.host ++ (u.path ++ (u.query ++ u.frag)))
  exact schemeSplit_scheme u.https _

theorem parse_href {u : Url} (h : UrlOk u) : parseUrlChars (hrefChars u) = some u := by
  obtain ⟨hh1, hh2, ⟨pt, hpt⟩, hp2, hp3, hq1, hq2, hf1, hf2⟩ := h
  have hostTW : ∀ c ∈ u.host, (fun c => !authStop c) c = true := fun c hc => by
    simp [(hostChar_facts (List.all_eq_true.mp hh2 c hc)).1]
  have pathTW : ∀ c ∈ u.path, (fun c => !pathStop c) c = true := fun c hc => by
    simp [(pathChar_facts (List.all_eq_true.mp hp2 c hc)).1]
  have queryTW : ∀ c ∈ u.query, (fun c => !(c.toNat = 35)) c = true := fun c hc => by
    simp only [Bool.not_eq_true']
    exact (queryChar_facts (List.all_eq_true.mp hq1 c hc)).1
  have pqfHead : u.path ++ (u.query ++ u.frag) = [] ∨
      ∃ c t, u.path ++ (u.query ++ u.frag) = c :: t ∧ (fun c => !authStop c) c = false := by
    rw [hpt]
    exact Or.inr ⟨'/', _, rfl, by decide⟩
  have qfHead : u.query ++ u.frag = [] ∨
      ∃ c t, u.query ++ u.frag = c :: t ∧ (fun c => !pathStop c) c = false := by
    rcases hq2 with hq | ⟨qt, hq⟩
    · rcases hf2 with hf | ⟨ft, hf⟩
      · exact Or.inl (by rw [hq, hf]; rfl)
      · exact Or.inr ⟨'#', ft, by rw [hq, hf]; rfl, by decide⟩
    · exact Or.inr ⟨'?', qt ++ u.frag, by rw [hq]; rfl, by decide⟩
  have fHead : u.frag = [] ∨
      ∃ c t, u.frag = c :: t ∧ (fun c => !(c.toNat = 35)) c = false := by
    rcases hf2 with hf | ⟨ft, hf⟩
    · exact Or.inl hf
    · exact Or.inr ⟨'#', ft, hf, by decide⟩
  unfold parseUrlChars
  rw [stripUrlInput_eq_self (urlOk_display ⟨hh1, hh2, ⟨pt, hpt⟩, hp2, hp3, hq1, hq2, hf1, hf2⟩)]
  rw [schemeSplit_href]
  show parseAuthority u.https (u.host ++ (u.path ++ (u.query ++ u.frag))) = some u
  unfold parseAuthority
  have htw : ((u.host ++ (u.path ++ (u.query ++ u.frag))).takeWhile (fun c => !authStop c)) =
      u.host := by
    rw [takeWhile_append_all _ _ _ hostTW, takeWhile_eq_nil_of_head _ _ pqfHead,
      List.append_nil]
  have hdw : ((u.host ++ (u.path ++ (u.query ++ u.frag))).dropWhile (fun c => !authStop c)) =
      u.path ++ (u.query ++ u.frag) := by
    rw [dropWhile_append_all _ _ _ hostTW, dropWhile_eq_self_of_head _ _ pqfHead]
  rw [htw, hdw]
  rw [if_neg (by simp [List.isEmpty_iff, hh1])]
  rw [if_neg (by
    rw [Bool.not_eq_true]
    rw [List.any_eq_false]
    intro c hc
    have := (hostChar_facts (List.all_eq_true.mp hh2 c hc)).2.1
    simpa using this)]
  have hlow : lowerList u.host = u.host := by
    unfold lowerList
    rw [List.map_congr_left
      (fun c hc => (hostChar_facts (List.all_eq_true.mp hh2 c hc)).2.2.2)]
    exact List.map_id _
  rw [hlow]
  rw [if_neg (by simp [hh2])]
  unfold parsePathOn
  have hptw : ((u.path ++ (u.query ++ u.frag)).takeWhile (fun c => !pathStop c)) = u.path := by
    rw [takeWhile_append_all _ _ _ pathTW, takeWhile_eq_nil_of_head _ _ qfHead,
      List.append_nil]
  have hpath : pathOf (u.path ++ (u.query ++ u.frag)) = u.path := by
    unfold pathOf
    rw [hptw, if_neg (by simp [List.isEmpty_iff, hpt])]
  have hpdw : ((u.path ++ (u.query ++ u.frag)).dropWhile (fun c => !pathStop c)) =
      u.query ++ u.frag := by
    rw [dropWhile_append_all _ _ _ pathTW, dropWhile_eq_self_of_head _ _ qfHead]
  rw [hpath, hpdw]
  rw [if_neg (by simp [hp2]), if_neg (by simp [hp3])]
  unfold parseQueryFrag
  have hqtw : ((u.query ++ u.frag).takeWhile (fun c => !(c.toNat = 35))) = u.query := by
    rw [takeWhile_append_all _ _ _ queryTW, takeWhile_eq_nil_of_head _ _ fHead,
      List.append_nil]
  have hqdw : ((u.query ++ u.frag).dropWhile (fun c => !(c.toNat = 35))) = u.frag := by
    rw [dropWhile_append_all _ _ _ queryTW, dropWhile_eq_self_of_head _ _ fHead]
  rw [hqtw, hqdw]
  rw [if_neg (by simp [hq1]), if_neg (by simp [hf1])]

theorem parseUrl_href {s : String} {u : Url} (h : parseUrl s = some u) :
    parseUrl (href u) = some u := by
  unfold parseUrl href
  show parseUrlChars (hrefChars u) = some u
  exact parse_href (parseUrl_ok h)

theorem isPrefixOf_append_self (l t : List Char) : l.isPrefixOf (l ++ t) = true := by
  induction l with
  | nil => simp [List.isPrefixOf]
  | cons c cs ih => simp [List.isPrefixOf, ih]

theorem hasHttpScheme_href (u : Url) : hasHttpScheme (href u) = true := by
  cases hb : u.https
  · unfold hasHttpScheme href hrefChars schemePart lowerList
    rw [hb, if_neg (by decide), List.map_append]
    rw [show (("http://").data).map Char.toLower = ("http://").data from rfl]
    rw [isPrefixOf_append_self]
    rfl
  · unfold hasHttpScheme href hrefChars schemePart lowerList
    rw [hb, if_pos (by decide), List.map_append]
    rw [show (("https://").data).map Char.toLower = ("https://").data from rfl]
    rw [isPrefixOf_append_self]
    simp

theorem jsTrim_of_display {s : String} (h : ∀ c ∈ s.data, urlDisplayChar c = true) :
    jsTrim s = s := by
  unfold jsTrim trimChars
  rw [dropWhile_eq_self_of_not _ (fun c hc => (display_facts (h c hc)).2.2)]
  rw [dropWhile_eq_self_of_not _
    (fun c hc => (display_facts (h c (List.mem_reverse.mp hc))).2.2)]
  rw [List.reverse_reverse]

theorem href_ne_empty (u : Url) : ¬(href u = ("")) := by
  intro h
  have hd : hrefChars u = [] := congrArg String.data h
  unfold hrefChars at hd
  have h1 := (List.append_eq_nil.mp hd).1
  unfold schemePart at h1
  split at h1 <;> exact absurd h1 (by decide)

theorem normalizeUrl_idem {s r : String} (h : normalizeUrl s = some r) :
    normalizeUrl r = some r := by
  unfold normalizeUrl at h
  rcases hp : parseUrl (if hasHttpScheme (jsTrim s) then jsTrim s
      else ("https://") ++ jsTrim s) with _ | u <;> rw [hp] at h
  · exact Option.noConfusion h
  · rw [show (some u).map href = some (href u) from rfl] at h
    injection h with h
    subst h
    have hok := parseUrl_ok hp
    unfold normalizeUrl
    rw [jsTrim_of_display (s := href u) (fun c hc => urlOk_display hok c hc)]
    rw [if_pos (hasHttpScheme_href u)]
    rw [parseUrl_href hp]
    rfl

/-! ## Claim C10 -/

/-- C10: for every input string lacking an `http://`/`https://` prefix,
    `normalizeUrl` prepends `https://` and the result parses as a valid
    absolute URL or the operation fails (`Invalid URL`); and
    `normalizeUrl` is idempotent — applying it to any successful output
    yields the same value. -/
theorem normalizeUrl_prepend_and_idem :
    (∀ s : String, hasHttpScheme (jsTrim s) = false →
        normalizeUrl s = (parseUrl (("https://") ++ jsTrim s)).map href) ∧
    (∀ s r : String, normalizeUrl s = some r → normalizeUrl r = some r) := by
  constructor
  · intro s hs
    unfold normalizeUrl
    rw [if_neg (by simp [hs])]
  · intro s r h
    exact normalizeUrl_idem h

/-- Witness for C10 at the concrete input `example.com`. -/
theorem normalizeUrl_prepend_and_idem_witness :
    hasHttpScheme (jsTrim ("example.com")) = false ∧
    normalizeUrl ("example.com") = (parseUrl (("https://") ++ jsTrim ("example.com"))).map href ∧
    normalizeUrl ("example.com") = some ("https://example.com/") ∧
    normalizeUrl ("https://example.com/") = some ("https://example.com/") := by
  refine ⟨by decide, normalizeUrl_prepend_and_idem.1 ("example.com") (by decide), by decide,
    normalizeUrl_prepend_and_idem.2 ("example.com") ("https://example.com/") (by decide)⟩

/-! ## Claim C9 -/

/-- C9: a primary-page fetch failure carrying HTTP status 403 or 401 is
    always answered through the access-blocked branch (client status
    403), never the generic one; the generic 500 branch is reached only
    for errors that are not 401/403, not DNS/connection failures and
    not timeouts. -/
theorem analyzeError_access_blocked :
    (∀ e : AnalyzeError, e.status = some 403 ∨ e.status = some 401 →
        classifyAnalyzeError e = 403) ∧
    (∀ e : AnalyzeError, classifyAnalyzeError e = 500 →
        e.status ≠ some 403 ∧ e.status ≠ some 401 ∧
        e.code ≠ some ("ECONNREFUSED") ∧ e.code ≠ some ("ENOTFOUND") ∧
        e.code ≠ some ("ETIMEDOUT") ∧
        containsSub (("timeout").data) e.message.data = false) := by
  constructor
  · intro e he
    unfold classifyAnalyzeError
    rcases he with he | he <;> rw [if_pos (by simp [he])]
  · intro e he
    unfold classifyAnalyzeError at he
    by_cases h1 : (e.status = some 403 || e.status = some 401) = true
    · rw [if_pos h1] at he; exact absurd he (by decide)
    rw [if_neg h1] at he
    by_cases h2 : (e.code = some ("ECONNREFUSED") || e.code = some ("ENOTFOUND")) = true
    · rw [if_pos h2] at he; exact absurd he (by decide)
    rw [if_neg h2] at he
    by_cases h3 :
        (e.code = some ("ETIMEDOUT") || containsSub (("timeout").data) e.message.data) = true
    · rw [if_pos h3] at he; exact absurd he (by decide)
    rw [if_neg h3] at he
    simp only [Bool.or_eq_true, decide_eq_true_eq, not_or] at h1 h2 h3
    exact ⟨h1.1, h1.2, h2.1, h2.2, h3.1, Bool.eq_false_iff.mpr h3.2⟩

/-- Witness for C9: a 403 response is classified 403; an unrelated
    error reaching the generic branch carries none of the special
    markers. -/
theorem analyzeError_access_blocked_witness :
    classifyAnalyzeError ⟨some 403, none, ("")⟩ = 403 ∧
    (⟨none, none, ("boom")⟩ : AnalyzeError).code ≠ some ("ETIMEDOUT") :=
  ⟨analyzeError_access_blocked.1 ⟨some 403, none, ("")⟩ (Or.inl rfl),
   (analyzeError_access_blocked.2 ⟨none, none, ("boom")⟩ (by decide)).2.2.2.2.1⟩

/-! ## Claim C2 -/

/-- C2 (code bug in the source): the spec — and the doc comment of
    `normalizeColor` itself — require every non-null result to be `#`
    plus exactly 6 uppercase hex digits, but on the accepted form
    `rgb(999, 0, 0)` the function returns the 7-hex-digit string
    `#3E70000`: `parseInt` is not clamped to 255, and
    `(999).toString(16)` is three digits wide. -/
theorem normalizeColor_seven_digit_output :
    normalizeColor ("rgb(999, 0, 0)") = some ("#3E70000") ∧
    isSixDigitUpperHex ("#3E70000") = false ∧
    isSixDigitUpperHex ("#3E7000") = true := by
  exact ⟨by decide, by decide, by decide⟩

/-! ## Claim C1 -/

/-- C1: over the brand-example CSS (a `:root` custom property
    `--brand-color:#FF0000` and a rule with `color:#FFFFFF`), the color
    extraction accumulates `#FF0000` with weight at least 3 through the
    brand-vocabulary custom-property scan and never admits `#FFFFFF`,
    whose average channel brightness 255 exceeds the 230 cutoff of
    `isBlackOrWhite`. -/
theorem extractColorsFromCSS_brand_example :
    (∃ w, lookupWeight (extractColorsFromCSS cssBrandExample) ("#FF0000") = some w ∧ 3 ≤ w) ∧
    lookupWeight (extractColorsFromCSS cssBrandExample) ("#FFFFFF") = none ∧
    isBlackOrWhite ("#FFFFFF") = true := by
  exact ⟨⟨3, by decide, by decide⟩, by decide, by decide⟩

/-! ## Claim C7 -/

theorem firstHero_eq_findSome (l : List String) :
    firstHero l = l.findSome? (fun t =>
      if !(jsTrim t = ("")) && 4 < (jsTrim t).length && (jsTrim t).length < 200 then
        some (jsTrim t)
      else none) := by
  induction l with
  | nil => rfl
  | cons t rest ih =>
    rw [List.findSome?_cons]
    unfold firstHero
    by_cases hc : (!(jsTrim t = ("")) && 4 < (jsTrim t).length && (jsTrim t).length < 200) = true
    · rw [if_pos hc, if_pos hc]
    · rw [if_neg hc, if_neg hc]
      exact ih

/-- C7 counterexample: a hero text of length exactly 4 lies inside the
    claimed 4–200 character window, but the code's strict `> 4` test
    rejects it and the extractor falls through to the first sentence of
    the page description. -/
theorem extractTagline_len4_cex :
    cexTaglineDoc.heroTexts.headD ("") = ("Oops") ∧
    jsTrim ("Oops") = ("Oops") ∧ ("Oops").length = 4 ∧
    extractTagline cexTaglineDoc ("Also this. Rest") = ("Also this") ∧
    ¬ extractTagline cexTaglineDoc ("Also this. Rest") = ("Oops") := by
  exact ⟨by decide, by decide, by decide, by decide, by decide⟩

/-- C7 (amended): the tagline is computed by the strict ordered
    fallback chain exactly as claimed — first matching hero-selector
    text, then og:description under 120 characters, then
    twitter:description under 120, then a non-empty trimmed `h1` under
    150, then the description before its first period — with the hero
    length window read strictly (length greater than 4 and less than
    200); in particular the hero document yields `Build Better`. -/
theorem extractTagline_chain :
    (∀ (d : TaglineDoc) (description : String),
        extractTagline d description = taglineSpecChain d description) ∧
    extractTagline heroTaglineDoc ("") = ("Build Better") := by
  constructor
  · intro d description
    unfold extractTagline taglineSpecChain
    rw [firstHero_eq_findSome]
  · decide

/-! ## Claim C6 -/

theorem mem_trimChars {c : Char} {l : List Char} (h : c ∈ trimChars l) : c ∈ l := by
  unfold trimChars at h
  rw [List.mem_reverse] at h
  have h1 := (List.dropWhile_sublist _).subset h
  rw [List.mem_reverse] at h1
  exact (List.dropWhile_sublist _).subset h1

theorem addToSet_all {P : String → Bool} {acc : List String} {x : String}
    (ha : acc.all P = true) (hx : P x = true) : (addToSet acc x).all P = true := by
  unfold addToSet
  split
  · exact ha
  · rw [List.all_append, ha]
    simp [hx]

theorem foldl_all_preserve {α : Type _} (f : List String → α → List String) (P : String → Bool)
    (hf : ∀ b a, b.all P = true → (f b a).all P = true) :
    ∀ (l : List α) (b : List String), b.all P = true → (l.foldl f b).all P = true := by
  intro l
  induction l with
  | nil => exact fun b hb => hb
  | cons x xs ih => exact fun b hb => ih (f b x) (hf b x hb)

theorem foldl_addToSet_all {P : String → Bool} (xs : List String) :
    ∀ acc, acc.all P = true → xs.all P = true → (xs.foldl addToSet acc).all P = true := by
  induction xs with
  | nil => exact fun acc ha _ => ha
  | cons x t ih =>
    intro acc ha hx
    rw [List.all_cons, Bool.and_eq_true] at hx
    exact ih (addToSet acc x) (addToSet_all ha hx.1) hx.2

/-- Family names produced from a `family=` parameter contain no `+` and
    no `:`, and are non-empty. -/
def cleanFontName (n : String) : Bool :=
  n.data.all (fun c => !(c = '+' || c = ':')) && !(n = (""))

theorem familyNamesOf_clean (fp : List Char) :
    (familyNamesOf fp).all cleanFontName = true := by
  unfold familyNamesOf
  rw [List.all_eq_true]
  intro n hn
  rw [List.mem_filterMap] at hn
  obtain ⟨e, _, he⟩ := hn
  by_cases h0 : (trimChars
      ((e.takeWhile (fun c => !(c = ':'))).map (fun c => if c = '+' then ' ' else c))).isEmpty = true
  · rw [if_pos h0] at he
    exact absurd he (by simp)
  · rw [if_neg h0] at he
    injection he with he
    subst he
    unfold cleanFontName
    rw [Bool.and_eq_true]
    constructor
    · rw [List.all_eq_true]
      intro c hc
      have hc2 := mem_trimChars hc
      rw [List.mem_map] at hc2
      obtain ⟨c0, hc0, rfl⟩ := hc2
      have hcolon := List.mem_takeWhile_imp hc0
      by_cases hplus : c0 = '+'
      · rw [if_pos hplus]; decide
      · rw [if_neg hplus]
        simp only [Bool.not_eq_true', Bool.or_eq_false_iff, decide_eq_false_iff_not]
        simp only [Bool.not_eq_true', decide_eq_false_iff_not] at hcolon
        exact ⟨hplus, hcolon⟩
    · simp only [Bool.not_eq_true', decide_eq_false_iff_not]
      intro heq
      have hdata := congrArg String.data heq
      rw [List.isEmpty_iff] at h0
      exact h0 hdata

theorem extractGoogleFonts_all_clean (d : PageDoc) :
    (extractGoogleFonts d).all cleanFontName = true := by
  unfold extractGoogleFonts
  apply foldl_all_preserve _ cleanFontName
  · intro b t hb
    apply foldl_all_preserve _ cleanFontName
    · intro b2 m hb2
      cases findFamilyParamQ (m.length + 1) m with
      | none => exact hb2
      | some fp => exact foldl_addToSet_all _ b2 hb2 (familyNamesOf_clean fp)
    · exact hb
  · apply foldl_all_preserve _ cleanFontName
    · intro b l hb
      cases findFamilyParam (l.href.data.length + 1) l.href.data with
      | none => exact hb
      | some fp => exact foldl_addToSet_all _ b hb (familyNamesOf_clean fp)
    · rfl

/-- C6: the Google-Fonts link with
    `family=Roboto:400,700|Open+Sans` yields exactly the families
    Roboto and Open Sans, both categorized Sans-Serif; and in general
    every family name extracted from Google-Fonts links or `@import`s
    has its `:` weight suffix stripped and all `+` replaced by spaces
    (no `+` or `:` remains) and is non-empty. -/
theorem extractGoogleFonts_example_and_clean :
    extractFonts googleLinkDoc ("https://example.com/") noNet =
      [⟨("Roboto"), ("Sans-Serif"), ("Aa Bb Cc 123")⟩,
       ⟨("Open Sans"), ("Sans-Serif"), ("Aa Bb Cc 123")⟩] ∧
    (∀ d : PageDoc, (extractGoogleFonts d).all cleanFontName = true) := by
  exact ⟨by decide, extractGoogleFonts_all_clean⟩

/-! ## Claim C3 -/

theorem relabelTop3_length (l : List ColorSample) : (relabelTop3 l).length = l.length := by
  rcases l with _ | ⟨a, _ | ⟨b, _ | ⟨c, rest⟩⟩⟩ <;> simp [relabelTop3]

theorem relabelTop3_pairs (l : List ColorSample) :
    (relabelTop3 l).map (fun c => (c.hex, c.frequency)) =
      l.map (fun c => (c.hex, c.frequency)) := by
  rcases l with _ | ⟨a, _ | ⟨b, _ | ⟨c, rest⟩⟩⟩ <;> simp [relabelTop3]

theorem relabelTop3_freq (l : List ColorSample) :
    (relabelTop3 l).map ColorSample.frequency = l.map ColorSample.frequency := by
  rcases l with _ | ⟨a, _ | ⟨b, _ | ⟨c, rest⟩⟩⟩ <;> simp [relabelTop3]

theorem pairwise_ge_descOkN : ∀ {l : List Nat}, l.Pairwise (fun a b => b ≤ a) →
    descOkN l = true := by
  intro l h
  induction l with
  | nil => rfl
  | cons a t ih =>
    cases t with
    | nil => rfl
    | cons b t2 =>
      rw [List.pairwise_cons] at h
      unfold descOkN
      rw [ih h.2]
      simp [h.1 b (by simp)]

theorem thOk_map (es : List (String × Nat)) :
    (es.map mkColorSample).all (fun x => x.label == thresholdLabel x.frequency) = true := by
  induction es with
  | nil => rfl
  | cons p t ih => simp [mkColorSample, ih]

theorem labelRankOk_relabel (l : List ColorSample)
    (hl : l.all (fun x => x.label == thresholdLabel x.frequency) = true) :
    labelRankOk (relabelTop3 l) = true := by
  rcases l with _ | ⟨a, _ | ⟨b, _ | ⟨c, rest⟩⟩⟩
  · rfl
  · simp [relabelTop3, labelRankOk]
  · simp [relabelTop3, labelRankOk]
  · have hrest : rest.all (fun x => x.label == thresholdLabel x.frequency) = true := by
      simp only [List.all_cons, Bool.and_eq_true] at hl
      exact hl.2.2.2
    simp [relabelTop3, labelRankOk, hrest]

theorem labelColors_spec (entries : List (String × Nat)) :
    (labelColors entries).length ≤ 8 ∧
    descOkN ((labelColors entries).map ColorSample.frequency) = true ∧
    labelRankOk (labelColors entries) = true ∧
    (labelColors entries).all (fun c => decide ((c.hex, c.frequency) ∈ entries)) = true := by
  have htot : ∀ a b : String × Nat,
      ((fun a b : String × Nat => (decide (b.2 ≤ a.2))) a b ||
       (fun a b : String × Nat => (decide (b.2 ≤ a.2))) b a) = true := by
    intro a b
    rcases Nat.le_total a.2 b.2 with h | h <;> simp [h]
  have htrans : ∀ a b c : String × Nat,
      (fun a b : String × Nat => (decide (b.2 ≤ a.2))) a b = true →
      (fun a b : String × Nat => (decide (b.2 ≤ a.2))) b c = true →
      (fun a b : String × Nat => (decide (b.2 ≤ a.2))) a c = true := by
    intro a b c hab hbc
    simp only [decide_eq_true_eq] at hab hbc ⊢
    omega
  have hsorted := sortStable_pairwise _ htot htrans entries
  have hperm := sortStable_perm (fun a b : String × Nat => (decide (b.2 ≤ a.2))) entries
  refine ⟨?_, ?_, ?_, ?_⟩
  · unfold labelColors
    rw [relabelTop3_length, List.length_map, List.length_take]
    omega
  · unfold labelColors
    rw [relabelTop3_freq, List.map_map]
    apply pairwise_ge_descOkN
    have htake := hsorted.sublist (List.take_sublist 8 _)
    have := htake.map (f := ColorSample.frequency ∘ mkColorSample)
      (S := fun a b : Nat => b ≤ a) ?_
    · exact this
    · intro a b hab
      simp only [decide_eq_true_eq] at hab
      exact hab
  · unfold labelColors
    exact labelRankOk_relabel _ (thOk_map _)
  · rw [List.all_eq_true]
    intro c hc
    rw [decide_eq_true_eq]
    have hmem : (c.hex, c.frequency) ∈
        (labelColors entries).map (fun c => (c.hex, c.frequency)) :=
      List.mem_map.mpr ⟨c, hc, rfl⟩
    unfold labelColors at hmem
    rw [relabelTop3_pairs, List.map_map] at hmem
    have hid : ((sortStable (fun a b : String × Nat => (decide (b.2 ≤ a.2))) entries).take 8).map
        ((fun c : ColorSample => (c.hex, c.frequency)) ∘ mkColorSample) =
        (sortStable (fun a b : String × Nat => (decide (b.2 ≤ a.2))) entries).take 8 := by
      rw [show ((fun c : ColorSample => (c.hex, c.frequency)) ∘ mkColorSample) =
        (fun p : String × Nat => p) from rfl]
      exact List.map_id _
    rw [hid] at hmem
    have := (List.take_sublist 8 _).subset hmem
    exact hperm.mem_iff.mp this

/-- C3: for every accumulated color frequency map, `extractColors`
    returns at most 8 entries, sorted by weakly descending accumulated
    weight, drawn from the map, and labeled by the two-pass rule: a
    threshold pass (weight above 5 Primary, above 2 Secondary, else
    Accent) followed by force-relabeling sorted ranks 1, 2, 3 to
    Primary, Secondary, Accent; entries past rank 3 — and, when fewer
    than 3 exist, the absent ranks — keep their threshold labels. -/
theorem extractColors_sorted_labeled (d : PageDoc) (baseUrl : String)
    (net : String → Except Unit String) :
    (extractColors d baseUrl net).length ≤ 8 ∧
    descOkN ((extractColors d baseUrl net).map ColorSample.frequency) = true ∧
    labelRankOk (extractColors d baseUrl net) = true ∧
    (extractColors d baseUrl net).all
      (fun c => decide ((c.hex, c.frequency) ∈ colorWeightMap d baseUrl net)) = true :=
  labelColors_spec (colorWeightMap d baseUrl net)

/-! ## Claims C4 and C5 -/

theorem const_pairwise {l : List LogoCandidate} {k : Nat} (h : ∀ x ∈ l, x.priority = k) :
    l.Pairwise (fun a c => a.priority ≤ c.priority) := by
  induction l with
  | nil => exact List.Pairwise.nil
  | cons a t ih =>
    rw [List.pairwise_cons]
    refine ⟨fun c hc => ?_, ih (fun x hx => h x (by simp [hx]))⟩
    rw [h a (by simp), h c (by simp [hc])]

theorem block_append_pairwise {l₂ : List LogoCandidate} {k : Nat} (bl : List LogoCandidate)
    (hb : ∀ x ∈ bl, x.priority = k) (hl : ∀ y ∈ l₂, k ≤ y.priority)
    (pl : l₂.Pairwise (fun a c => a.priority ≤ c.priority)) :
    (bl ++ l₂).Pairwise (fun a c => a.priority ≤ c.priority) ∧
      ∀ y ∈ bl ++ l₂, k ≤ y.priority := by
  constructor
  · rw [List.pairwise_append]
    refine ⟨const_pairwise hb, pl, fun x hx y hy => ?_⟩
    rw [hb x hx]
    exact hl y hy
  · intro y hy
    rcases List.mem_append.mp hy with hy | hy
    · rw [hb y hy]
    · exact hl y hy

theorem logoCandidates_pairwise (d : LogoDoc) (baseUrl : String) (b : Url) :
    (logoCandidates d baseUrl b).Pairwise (fun a c => a.priority ≤ c.priority) := by
  unfold logoCandidates
  simp only [List.append_assoc]
  have h1 : ∀ x ∈ (if d.ogImage = ("") then ([] : List LogoCandidate)
      else [⟨resolveUrl baseUrl d.ogImage, ("og:image"), 1⟩]), x.priority = 1 := by
    intro x hx
    split at hx
    · simp at hx
    · rw [List.mem_singleton] at hx
      rw [hx]
  have h2 : ∀ x ∈ (if d.twitterImage = ("") then ([] : List LogoCandidate)
      else [⟨resolveUrl baseUrl d.twitterImage, ("twitter:image"), 2⟩]), x.priority = 2 := by
    intro x hx
    split at hx
    · simp at hx
    · rw [List.mem_singleton] at hx
      rw [hx]
  have h3 : ∀ x ∈ d.appleTouchIcons.filterMap (fun h =>
      if h = ("") then (none : Option LogoCandidate)
      else some ⟨resolveUrl baseUrl h, ("apple-touch-icon"), 3⟩),
      x.priority = 3 := by
    intro x hx
    rw [List.mem_filterMap] at hx
    obtain ⟨a, _, ha⟩ := hx
    by_cases he : a = ("")
    · rw [if_pos he] at ha
      exact absurd ha (by simp)
    · rw [if_neg he] at ha
      injection ha with ha
      rw [← ha]
  have h4 : ∀ x ∈ d.imgs.filterMap (fun el =>
      if imgIsLogo el && !(el.src = ("")) then
        some ⟨resolveUrl baseUrl el.src, ("img[logo]"), 4⟩
      else (none : Option LogoCandidate)), x.priority = 4 := by
    intro x hx
    rw [List.mem_filterMap] at hx
    obtain ⟨a, _, ha⟩ := hx
    split at ha
    · injection ha with ha
      rw [← ha]
    · exact absurd ha (by simp)
  have h5 : ∀ x ∈ d.svgClasses.filterMap (fun cls =>
      if containsSub (("logo").data) (lowerList cls.data) then
        some (⟨none, ("inline-svg"), 5⟩ : LogoCandidate)
      else none), x.priority = 5 := by
    intro x hx
    rw [List.mem_filterMap] at hx
    obtain ⟨a, _, ha⟩ := hx
    split at ha
    · injection ha with ha
      rw [← ha]
    · exact absurd ha (by simp)
  have h6 : ∀ x ∈ (if d.iconHref = ("") then ([] : List LogoCandidate)
      else [⟨resolveUrl baseUrl d.iconHref, ("favicon"), 6⟩]), x.priority = 6 := by
    intro x hx
    split at hx
    · simp at hx
    · rw [List.mem_singleton] at hx
      rw [hx]
  have h7 : ∀ x ∈ ([⟨some (origin b ++ ("/favicon.ico")), ("favicon-fallback"), 7⟩] :
      List LogoCandidate), x.priority = 7 := by
    intro x hx
    rw [List.mem_singleton] at hx
    rw [hx]
  have s7 : (([⟨some (origin b ++ ("/favicon.ico")), ("favicon-fallback"), 7⟩] :
      List LogoCandidate)).Pairwise (fun a c => a.priority ≤ c.priority) ∧
      ∀ y ∈ ([⟨some (origin b ++ ("/favicon.ico")), ("favicon-fallback"), 7⟩] :
        List LogoCandidate), 7 ≤ y.priority := by
    refine ⟨const_pairwise h7, fun y hy => ?_⟩
    rw [h7 y hy]
  have s6 := block_append_pairwise _ h6 (fun y hy => le_trans (by omega) (s7.2 y hy)) s7.1
  have s5 := block_append_pairwise _ h5 (fun y hy => le_trans (by omega) (s6.2 y hy)) s6.1
  have s4 := block_append_pairwise _ h4 (fun y hy => le_trans (by omega) (s5.2 y hy)) s5.1
  have s3 := block_append_pairwise _ h3 (fun y hy => le_trans (by omega) (s4.2 y hy)) s4.1
  have s2 := block_append_pairwise _ h2 (fun y hy => le_trans (by omega) (s3.2 y hy)) s3.1
  have s1 := block_append_pairwise _ h1 (fun y hy => le_trans (by omega) (s2.2 y hy)) s2.1
  exact s1.1

theorem map_href_ne_empty {o : Option Url} {u : String} (h : o.map href = some u) :
    ¬ u = ("") := by
  rcases o with _ | v
  · exact Option.noConfusion h
  · rw [show (some v).map href = some (href v) from rfl] at h
    injection h with h
    rw [← h]
    exact href_ne_empty v

theorem resolveUrl_some_parts {base rel u : String} (h : resolveUrl base rel = some u) :
    ¬ rel = ("") ∧ ∃ b, parseUrl base = some b := by
  unfold resolveUrl at h
  by_cases h0 : rel = ("")
  · rw [if_pos h0] at h
    exact absurd h (by simp)
  · rw [if_neg h0] at h
    rcases hb : parseUrl base with _ | b <;> rw [hb] at h
    · exact Option.noConfusion h
    · exact ⟨h0, b, rfl⟩

theorem resolveRel_ne_empty {b : Url} {rc : List Char} {u : String}
    (h : resolveRel b rc = some u) : ¬ u = ("") := by
  unfold resolveRel at h
  split at h
  · exact map_href_ne_empty h
  · split at h
    · exact Option.noConfusion h
    · split at h
      · exact map_href_ne_empty h
      · split at h
        · exact map_href_ne_empty h
        · split at h
          · exact map_href_ne_empty h
          · exact map_href_ne_empty h

theorem resolveUrl_ne_empty {base rel u : String} (h : resolveUrl base rel = some u) :
    ¬ u = ("") := by
  unfold resolveUrl at h
  split at h
  · exact Option.noConfusion h
  · split at h
    · exact Option.noConfusion h
    · split at h
      · exact map_href_ne_empty h
      · exact resolveRel_ne_empty h

/-- C4 (amended): whenever the `og:image` content resolves to a
    non-null URL against the base, the chosen candidate is the
    priority-1 `og:image` candidate, regardless of all other logo
    signals; when resolution fails the og candidate's url is null and a
    lower-priority candidate is chosen instead. -/
theorem extractLogo_og_first {d : LogoDoc} {baseUrl u : String}
    (h : resolveUrl baseUrl d.ogImage = some u) :
    extractLogo d baseUrl = some (some ⟨some u, ("og:image"), 1⟩) := by
  obtain ⟨hne, b, hb⟩ := resolveUrl_some_parts h
  unfold extractLogo
  rw [hb]
  show some ((sortStable (fun a c => a.priority ≤ c.priority)
    (logoCandidates d baseUrl b)).find? (fun c => jsTruthyOptStr c.url)) = _
  rw [sortStable_of_pairwise _
    ((logoCandidates_pairwise d baseUrl b).imp (fun hac => by simpa using hac))]
  unfold logoCandidates
  rw [if_neg hne, h]
  simp only [List.append_assoc, List.singleton_append, List.cons_append]
  rw [List.find?_cons_of_pos _ (by
    simp only [jsTruthyOptStr]
    simpa using resolveUrl_ne_empty h)]

/-- Witness for the amended C4 at a concrete page. -/
theorem extractLogo_og_first_witness :
    resolveUrl ("https://example.com/") ogLogoDoc.ogImage =
      some ("https://example.com/logo.png") ∧
    extractLogo ogLogoDoc ("https://example.com/") =
      some (some ⟨some ("https://example.com/logo.png"), ("og:image"), 1⟩) :=
  ⟨by decide, extractLogo_og_first (by decide)⟩

/-- C4 counterexample: the page carries a non-empty `og:image` content
    `http://` (which `new URL` cannot resolve, so the candidate's url is
    null) plus an apple-touch-icon; the chosen candidate has priority 3,
    not 1. -/
theorem extractLogo_og_not_first_cex :
    ¬ cexLogoDoc.ogImage = ("") ∧
    extractLogo cexLogoDoc ("https://example.com/") =
      some (some ⟨some ("https://example.com/icon.png"), ("apple-touch-icon"), 3⟩) ∧
    (3 : Nat) ≠ 1 := ⟨by decide, by decide, by decide⟩

theorem append_favicon_ne_empty (b : Url) : ¬(origin b ++ ("/favicon.ico") = ("")) := by
  intro h
  have hd := congrArg String.data h
  rw [String.data_append] at hd
  exact absurd (List.append_eq_nil.mp hd).2 (by decide)

theorem logoCandidates_getLast (d : LogoDoc) (baseUrl : String) (b : Url) :
    (logoCandidates d baseUrl b).getLast? =
      some ⟨some (origin b ++ ("/favicon.ico")), ("favicon-fallback"), 7⟩ := by
  unfold logoCandidates
  rw [List.getLast?_append]
  rfl

/-- C5: `extractLogo` always appends the priority-7 favicon-fallback
    candidate whose url is the page origin plus `/favicon.ico`, and the
    first truthy-url candidate of the priority-sorted list is returned —
    hence the result is never null once the base URL parses; for a page
    with no logo signals at all the returned candidate is exactly that
    origin favicon fallback. -/
theorem extractLogo_fallback (d : LogoDoc) (baseUrl : String) (b : Url)
    (hb : parseUrl baseUrl = some b) :
    (logoCandidates d baseUrl b).getLast? =
      some ⟨some (origin b ++ ("/favicon.ico")), ("favicon-fallback"), 7⟩ ∧
    (∃ c, extractLogo d baseUrl = some (some c)) ∧
    (noLogoSignals d = true →
      extractLogo d baseUrl =
        some (some ⟨some (origin b ++ ("/favicon.ico")), ("favicon-fallback"), 7⟩)) := by
  refine ⟨logoCandidates_getLast d baseUrl b, ?_, ?_⟩
  · unfold extractLogo
    rw [hb]
    show ∃ c, some ((sortStable (fun a c : LogoCandidate => (decide (a.priority ≤ c.priority)))
      (logoCandidates d baseUrl b)).find? (fun c => jsTruthyOptStr c.url)) = some (some c)
    have hmem : (⟨some (origin b ++ ("/favicon.ico")), ("favicon-fallback"), 7⟩ :
        LogoCandidate) ∈ logoCandidates d baseUrl b := by
      unfold logoCandidates
      simp
    have hmem2 := (sortStable_perm
      (fun a c : LogoCandidate => (decide (a.priority ≤ c.priority)))
      (logoCandidates d baseUrl b)).mem_iff.mpr hmem
    have hsome : ((sortStable (fun a c : LogoCandidate => (decide (a.priority ≤ c.priority)))
        (logoCandidates d baseUrl b)).find? (fun c => jsTruthyOptStr c.url)).isSome = true :=
      List.find?_isSome.mpr ⟨_, hmem2, by
        simp only [jsTruthyOptStr]
        simpa using append_favicon_ne_empty b⟩
    obtain ⟨c, hc⟩ := Option.isSome_iff_exists.mp hsome
    exact ⟨c, by rw [hc]⟩
  · intro hns
    simp only [noLogoSignals, Bool.and_eq_true, decide_eq_true_eq] at hns
    obtain ⟨⟨⟨⟨⟨hog, htw⟩, happle⟩, himg⟩, hsvg⟩, hicon⟩ := hns
    unfold extractLogo
    rw [hb]
    unfold logoCandidates
    rw [if_pos hog, if_pos htw, if_pos hicon]
    rw [List.filterMap_eq_nil_iff.mpr (fun a ha => by
      rw [if_pos (by simpa using (List.all_eq_true.mp happle a ha))])]
    rw [List.filterMap_eq_nil_iff.mpr (fun el hel => by
      have hd := List.all_eq_true.mp himg el hel
      rw [Bool.not_eq_true'] at hd
      rw [if_neg (by simp [hd])])]
    rw [List.filterMap_eq_nil_iff.mpr (fun cls hcls => by
      have hd := List.all_eq_true.mp hsvg cls hcls
      rw [Bool.not_eq_true'] at hd
      rw [if_neg (by simp [hd])])]
    simp only [List.nil_append]
    rw [show sortStable (fun a c : LogoCandidate => (decide (a.priority ≤ c.priority)))
      [⟨some (origin b ++ ("/favicon.ico")), ("favicon-fallback"), 7⟩] =
      [⟨some (origin b ++ ("/favicon.ico")), ("favicon-fallback"), 7⟩] from rfl]
    rw [List.find?_cons_of_pos _ (by
      simp only [jsTruthyOptStr]
      simpa using append_favicon_ne_empty b)]

/-- Witness for C5 at `https://example.com/` with a signal-free page. -/
theorem extractLogo_fallback_witness :
    parseUrl ("https://example.com/") = some exUrl ∧
    noLogoSignals emptyLogoDoc = true ∧
    extractLogo emptyLogoDoc ("https://example.com/") =
      some (some ⟨some ("https://example.com/favicon.ico"), ("favicon-fallback"), 7⟩) := by
  refine ⟨by decide, by decide, ?_⟩
  have h := (extractLogo_fallback emptyLogoDoc ("https://example.com/") exUrl (by decide)).2.2
    (by decide)
  rw [h]
  decide

/-! ## Claim C8 -/

theorem addToSet_grows (acc : List String) (x : String) : acc <+: addToSet acc x := by
  unfold addToSet
  split
  · exact ⟨[], List.append_nil acc⟩
  · exact ⟨[x], rfl⟩

theorem foldl_grows {α : Type _} (g : List String → α → List String)
    (hg : ∀ acc x, acc <+: g acc x) :
    ∀ (l : List α) (acc : List String), acc <+: l.foldl g acc := by
  intro l
  induction l with
  | nil => exact fun acc => ⟨[], List.append_nil acc⟩
  | cons x xs ih => exact fun acc => (hg acc x).trans (ih (g acc x))

theorem foldl_addToSet_grows {α : Type _} (f : α → List String) (l : List α)
    (acc : List String) : acc <+: l.foldl (fun a x => (f x).foldl addToSet a) acc :=
  foldl_grows _ (fun acc x => foldl_grows _ (fun a y => addToSet_grows a y) (f x) acc) l acc

theorem take_mono_pre {l₁ l₂ : List String} (n : Nat) (h : l₁ <+: l₂) :
    l₁.take n <+: l₂.take n := by
  obtain ⟨t, rfl⟩ := h
  rw [List.take_append_eq_append_take]
  exact ⟨_, rfl⟩

theorem foldl_fetch_congr {β : Type _} (g : β → String → β)
    {net net' : String → Except Unit String}
    (h : ∀ u, fetchCSS net u = fetchCSS net' u) :
    ∀ (l : List String) (acc : β),
      l.foldl (fun a u => g a (fetchCSS net u)) acc =
        l.foldl (fun a u => g a (fetchCSS net' u)) acc := by
  intro l
  induction l with
  | nil => exact fun acc => rfl
  | cons x xs ih =>
    intro acc
    show xs.foldl _ (g acc (fetchCSS net x)) = xs.foldl _ (g acc (fetchCSS net' x))
    rw [h x]
    exact ih _

theorem fetchCSS_override {net : String → Except Unit String} {u₀ : String}
    (h : net u₀ = Except.error ()) (u : String) :
    fetchCSS net u =
      fetchCSS (fun x => if x = u₀ then Except.ok ("") else net x) u := by
  unfold fetchCSS
  show _ = match (if u = u₀ then Except.ok ("") else net u) with
    | Except.ok d => if d = ("") then ("") else d
    | Except.error _ => ("")
  by_cases he : u = u₀
  · rw [if_pos he, he, h]
    rfl
  · rw [if_neg he]

/-- C8: `fetchCSS` returns the empty string on any network failure and
    never raises; consequently a failed fetch of one of the up-to-3
    external stylesheets behaves exactly like an empty stylesheet —
    which contributes nothing — so the fonts gathered from the
    Google-Fonts links and inline style blocks (up to the 6-entry cap)
    and the colors from the other sources still appear in the result. -/
theorem fetchCSS_degradation :
    (∀ (net : String → Except Unit String) (u : String),
        net u = Except.error () → fetchCSS net u = ("")) ∧
    (∀ (d : PageDoc) (baseUrl : String) (net : String → Except Unit String),
        (baseFontNames d).take 6 <+: (extractFonts d baseUrl net).map FontEntry.name) ∧
    (∀ (d : PageDoc) (baseUrl : String) (net : String → Except Unit String) (u₀ : String),
        net u₀ = Except.error () →
          extractFonts d baseUrl net =
            extractFonts d baseUrl (fun x => if x = u₀ then Except.ok ("") else net x) ∧
          extractColors d baseUrl net =
            extractColors d baseUrl (fun x => if x = u₀ then Except.ok ("") else net x)) ∧
    (extractFontsFromCSS ("") = [] ∧ extractColorsFromCSS ("") = []) := by
  refine ⟨?_, ?_, ?_, by decide, by decide⟩
  · intro net u h
    unfold fetchCSS
    rw [h]
  · intro d baseUrl net
    unfold extractFonts
    rw [List.map_map]
    rw [show (FontEntry.name ∘ mkFontEntry) = id from rfl, List.map_id]
    exact take_mono_pre 6
      (foldl_addToSet_grows (fun u => extractFontsFromCSS (fetchCSS net u)) _ _)
  · intro d baseUrl net u₀ h
    constructor
    · unfold extractFonts
      rw [foldl_fetch_congr (fun acc s => (extractFontsFromCSS s).foldl addToSet acc)
        (fetchCSS_override h)]
    · unfold extractColors colorWeightMap
      rw [foldl_fetch_congr (fun m s => mergeMap m (extractColorsFromCSS s))
        (fetchCSS_override h)]

/-- Witness for C8: a concrete always-failing network degrades to empty
    stylesheets without dropping the Google-Fonts entries. -/
theorem fetchCSS_degradation_witness :
    fetchCSS noNet ("https://example.com/a.css") = ("") ∧
    (baseFontNames googleLinkDoc).take 6 <+:
      (extractFonts googleLinkDoc ("https://example.com/") noNet).map FontEntry.name ∧
    extractColors googleLinkDoc ("https://example.com/") noNet =
      extractColors googleLinkDoc ("https://example.com/")
        (fun x => if x = ("https://example.com/a.css") then Except.ok ("") else noNet x) :=
  ⟨fetchCSS_degradation.1 noNet ("https://example.com/a.css") rfl,
   fetchCSS_degradation.2.1 googleLinkDoc ("https://example.com/") noNet,
   (fetchCSS_degradation.2.2.1 googleLinkDoc ("https://example.com/") noNet
     ("https://example.com/a.css") rfl).2⟩

end Thestyleof
